import Mathlib

/-!
# Verification of the omegaUp grader front end (`quark`)

Shallow embedding of `cmd/omegaup-grader/main.go` and `common/context.go`,
followed by the theorems that settle the specification's claims about them.

Modelling conventions
* A Go `[]byte`, and a Go `string` handled as bytes, is a list of bytes
  (`Bytes`); configuration strings are Lean strings.
* A call on the `base.Metrics` interface is recorded as a `MetricCall`; a
  function that talks to the metrics sink returns the list of calls it makes,
  in order.
* Constants of the `grader` package that the sources only reference
  (`grader.QueueEventType*`, `grader.QueuePriority*`) are parameters, bundled
  in `GraderConsts`.  Collaborators that may fail (`os.Open`,
  `grader.NewContext`, `base.RotatingLog`, `base.NewRotatingFile`) are
  parameters as well.
* Standard library functions the sources call are modelled after their
  documented algorithm: `bytes.Buffer.Write`, `fmt.Fprintf` with `%s`,
  `(*json.Decoder).Decode` into a struct, `filepath.Clean` and
  `filepath.Join` on Unix.
* A Go pointer to a `Config` is an address into an explicit `Store`; a panic
  is an `Except Panic` error.
-/

namespace Quark

/-! ## Queue events and the metrics sink -/

/-- Go's `time.Duration`: a signed number of nanoseconds. -/
abbrev Duration := Int

/-- The `grader.QueueEvent` record as far as `queEventsProcessor` reads it:
`event.Type`, `event.Priority` and `event.Delta`.  The two tags are Go
integers. -/
structure QueueEvent where
  Delta : Duration
  Priority : Int
  Typ : Int
deriving DecidableEq, Repr

/-- The named constants of package `grader` used by `queEventsProcessor`.
Their numeric values are not part of the sources at hand, so they are
parameters of the model. -/
structure GraderConsts where
  QueueEventTypeManagerAdded : Int
  QueueEventTypeManagerRemoved : Int
  QueueEventTypeQueueRemoved : Int
  QueueEventTypeRetried : Int
  QueueEventTypeAbandoned : Int
  QueuePriorityEphemeral : Int
  QueuePriorityLow : Int
  QueuePriorityNormal : Int
  QueuePriorityHigh : Int
deriving DecidableEq, Repr

/-- The event-type tags named in the outer `switch`, in source order. -/
def GraderConsts.eventTypes (K : GraderConsts) : List Int :=
  [K.QueueEventTypeManagerAdded, K.QueueEventTypeManagerRemoved,
   K.QueueEventTypeQueueRemoved, K.QueueEventTypeRetried,
   K.QueueEventTypeAbandoned]

/-- The priority tags named in the inner `switch`, in source order. -/
def GraderConsts.priorities (K : GraderConsts) : List Int :=
  [K.QueuePriorityEphemeral, K.QueuePriorityLow,
   K.QueuePriorityNormal, K.QueuePriorityHigh]

/-- The Go compiler rejects a `switch` with two equal integer constant cases,
so in any program that builds the tags of each `switch` are pairwise
distinct. -/
def GraderConsts.Distinct (K : GraderConsts) : Prop :=
  K.eventTypes.Nodup ∧ K.priorities.Nodup

instance (K : GraderConsts) : Decidable K.Distinct := by
  unfold GraderConsts.Distinct; infer_instance

/-- A concrete assignment of pairwise distinct tags, used to run the model. -/
def sampleConsts : GraderConsts where
  QueueEventTypeManagerAdded := 0
  QueueEventTypeManagerRemoved := 1
  QueueEventTypeQueueRemoved := 3
  QueueEventTypeRetried := 4
  QueueEventTypeAbandoned := 5
  QueuePriorityEphemeral := 3
  QueuePriorityLow := 2
  QueuePriorityNormal := 1
  QueuePriorityHigh := 0

/-- One call on the `base.Metrics` interface held in `ctx.Metrics`.
`GaugeAdd name v` is `GaugeAdd(name, v)` (the sources only pass `1` and
`-1`); `SummaryObserve name d` is `SummaryObserve(name, d.Seconds())`, kept
as the duration `d` whose seconds are observed. -/
inductive MetricCall where
  | GaugeAdd (name : String) (value : Int)
  | SummaryObserve (name : String) (delta : Duration)
deriving DecidableEq, Repr

/-- The metric a call updates. -/
def MetricCall.name : MetricCall → String
  | .GaugeAdd n _ => n
  | .SummaryObserve n _ => n

/-- The body of the `switch event.Type` statement of `queEventsProcessor`
(main.go:146-167): the metric calls made for one received event.  Go tries
the cases top to bottom and runs the first that matches; with no `default`
an unmatched tag runs nothing. -/
def processEvent (K : GraderConsts) (event : QueueEvent) : List MetricCall :=
  if event.Typ = K.QueueEventTypeManagerAdded then
    [.GaugeAdd "grader_queue_total_length" 1]
  else if event.Typ = K.QueueEventTypeManagerRemoved then
    [.GaugeAdd "grader_queue_total_length" (-1),
     .SummaryObserve "grader_queue_delay_seconds" event.Delta]
  else if event.Typ = K.QueueEventTypeQueueRemoved then
    if event.Priority = K.QueuePriorityEphemeral then
      [.SummaryObserve "grader_queue_ephemeral_delay_seconds" event.Delta]
    else if event.Priority = K.QueuePriorityLow then
      [.SummaryObserve "grader_queue_low_delay_seconds" event.Delta]
    else if event.Priority = K.QueuePriorityNormal then
      [.SummaryObserve "grader_queue_normal_delay_seconds" event.Delta]
    else if event.Priority = K.QueuePriorityHigh then
      [.SummaryObserve "grader_queue_high_delay_seconds" event.Delta]
    else
      []
  else if event.Typ = K.QueueEventTypeRetried then
    [.GaugeAdd "grader_runs_retry" 1]
  else if event.Typ = K.QueueEventTypeAbandoned then
    [.GaugeAdd "grader_runs_abandoned" 1]
  else
    []

/-- The function `queEventsProcessor` (main.go:137-170) run on a channel that
delivers the (non-nil) `events` in order and is then closed: the
`for`/`select` loop handles one event per iteration and returns when the
receive reports `!ok`.  The result is the sequence of metric calls made on
`ctx.Metrics`, where `ctx` is the context stored at the time of the call. -/
def queEventsProcessor (K : GraderConsts) : List QueueEvent → List MetricCall
  | [] => []
  | event :: rest => processEvent K event ++ queEventsProcessor K rest

/-- The net amount added to gauge `name` by a sequence of metric calls. -/
def gaugeTotal (name : String) : List MetricCall → Int
  | [] => 0
  | .GaugeAdd n v :: rest => (if n = name then v else 0) + gaugeTotal name rest
  | .SummaryObserve _ _ :: rest => gaugeTotal name rest

/-- Number of events in the sequence carrying the event-type tag `t`. -/
def countType (t : Int) (events : List QueueEvent) : Nat :=
  events.countP (fun e => e.Typ = t)

/-- The depth of lane `p` in the claim's words: the number of runs added to
lane `p` (manager-added events with priority `p`) and not yet removed from it
(queue-removed events with priority `p`). -/
def specLaneDepth (K : GraderConsts) (p : Int) (events : List QueueEvent) : Int :=
  (events.countP (fun e => e.Typ = K.QueueEventTypeManagerAdded ∧ e.Priority = p) : Int)
    - (events.countP (fun e => e.Typ = K.QueueEventTypeQueueRemoved ∧ e.Priority = p) : Int)

/-- The event `e` with its priority replaced by `p` unless it is a
queue-removed event, which is left as it is. -/
def withPriority (K : GraderConsts) (p : QueueEvent → Int) (e : QueueEvent) : QueueEvent :=
  if e.Typ = K.QueueEventTypeQueueRemoved then e else { e with Priority := p e }

/-! ## Contexts and the log buffer (`common/context.go`) -/

/-- A Go `[]byte`, and the bytes of a Go `string`. -/
abbrev Bytes := List UInt8

/-- The bytes of an ASCII string literal of the sources. -/
def ascii (s : String) : Bytes :=
  s.toList.map (fun c => UInt8.ofNat c.toNat)

/-- The events held by a `MemoryEventCollector`, each in serialised form. -/
abbrev MemoryEventCollector := List Bytes

/-- A run-time panic of the Go program. -/
inductive Panic where
  | nilDereference
  | failedTypeAssertion
  | error (msg : String)
deriving DecidableEq, Repr

/-- The `Context` struct of `common/context.go`, generic in the type of its
`Config` field.  `logBuffer` and `memoryCollector` are Go pointers: `none` is
`nil`, `some b` points to a buffer whose current contents are `b`.  The
fields `Log`, `EventCollector`, `EventFactory` and `Metrics` are handles to
collaborators and carry no data of their own; they are left out. -/
structure Context (Cfg : Type) where
  Config : Cfg
  logBuffer : Option Bytes
  memoryCollector : Option MemoryEventCollector
deriving DecidableEq, Repr

/-- The method `DebugContext` (context.go:320-343): a child context with the
parent's `Config`, a fresh empty `bytes.Buffer` and a fresh memory
collector. -/
def Context.DebugContext {Cfg : Type} (context : Context Cfg) : Context Cfg :=
  { Config := context.Config
    logBuffer := some []
    memoryCollector := some [] }

/-- What `fmt.Fprintf(w, "================  %s  ================\n", name)`
writes: the format's text with the bytes of `name` in place of `%s`. -/
def sectionHeader (sectionName : Bytes) : Bytes :=
  ascii "================  " ++ sectionName ++ ascii "  ================\n"

/-- What `fmt.Fprintf(w, "================ /%s  ================\n", name)`
writes. -/
def sectionFooter (sectionName : Bytes) : Bytes :=
  ascii "================ /" ++ sectionName ++ ascii "  ================\n"

/-- The call `buffer.Write(p)` on a `*bytes.Buffer`: appends `p`; on a `nil`
pointer the method dereferences its receiver and panics.  Running out of
memory is not modelled. -/
def bufferWrite (buffer : Option Bytes) (p : Bytes) : Except Panic Bytes :=
  match buffer with
  | none => .error .nilDereference
  | some b => .ok (b ++ p)

/-- The method `AppendLogSection` (context.go:347-351): three writes to
`context.logBuffer`, the header line, the contents and the footer line.
`fmt.Fprintf` formats its text and hands it to the writer's `Write`. -/
def Context.AppendLogSection {Cfg : Type} (context : Context Cfg)
    (sectionName : Bytes) (contents : Bytes) : Except Panic (Context Cfg) := do
  let b1 ← bufferWrite context.logBuffer (sectionHeader sectionName)
  let b2 ← bufferWrite (some b1) contents
  let b3 ← bufferWrite (some b2) (sectionFooter sectionName)
  pure { context with logBuffer := some b3 }

/-- The method `LogBuffer` (context.go:354-359): `nil` (`none`) when the
context has no log buffer, else the buffer's bytes. -/
def Context.LogBuffer {Cfg : Type} (context : Context Cfg) : Option Bytes :=
  match context.logBuffer with
  | none => none
  | some b => some b

/-- The method `TraceBuffer` (context.go:363-372): `nil` (`none`) when the
context has no memory collector, else the result of
`json.Marshal(context.memoryCollector)`, or the text of its error.  The
marshaller is a parameter; its error is given as the bytes of `err.Error()`. -/
def Context.TraceBuffer {Cfg : Type} (context : Context Cfg)
    (jsonMarshal : MemoryEventCollector → Except Bytes Bytes) : Option Bytes :=
  match context.memoryCollector with
  | none => none
  | some collector =>
    match jsonMarshal collector with
    | .error msg => some msg
    | .ok data => some data

/-- A marshaller to run `TraceBuffer` with: the events between brackets. -/
def sampleJsonMarshal (collector : MemoryEventCollector) : Except Bytes Bytes :=
  .ok (ascii "[" ++ collector.flatten ++ ascii "]")

/-! ## The global context (`cmd/omegaup-grader/main.go`) -/

/-- The collaborators `loadContext` calls: `os.Open` on the configuration
path and `grader.NewContext` on the opened file.  Both may fail. -/
structure LoadEnv (File Ctx Err : Type) where
  osOpen : String → Except Err File
  graderNewContext : File → Except Err Ctx

/-- The function `loadContext` (main.go:56-69).  `globalContext` is the
`atomic.Value` holding the current `*grader.Context` (`none` before the
first `Store`).  Returns the `error` result (`none` is `nil`) and the new
contents of `globalContext`. -/
def loadContext {File Ctx Err : Type} (env : LoadEnv File Ctx Err) (configPath : String)
    (globalContext : Option Ctx) : Option Err × Option Ctx :=
  match env.osOpen configPath with
  | .error err => (some err, globalContext)
  | .ok f =>
    match env.graderNewContext f with
    | .error err => (some err, globalContext)
    | .ok ctx => (none, some ctx)

/-- The function `context` (main.go:71-73): `globalContext.Load()` asserted
to `*grader.Context`; the assertion panics when nothing was stored. -/
def context {Ctx : Type} (globalContext : Option Ctx) : Except Panic Ctx :=
  match globalContext with
  | none => .error .failedTypeAssertion
  | some ctx => .ok ctx

/-- How the start of `main` (main.go:172-184) ends. -/
inductive Startup (Ctx Err : Type) where
  | printedVersion
  | panicked (err : Err)
  | noContext
  | running (ctx : Ctx) (globalContext : Option Ctx)

/-- The start of `main` (main.go:172-184): with `-version` it prints and
returns; otherwise it calls `loadContext`, panics with its error if there is
one, and goes on with `ctx := context()`. -/
def mainStartup {File Ctx Err : Type} (env : LoadEnv File Ctx Err) (version : Bool)
    (configPath : String) (globalContext : Option Ctx) : Startup Ctx Err :=
  if version then .printedVersion
  else
    match loadContext env configPath globalContext with
    | (some err, _) => .panicked err
    | (none, g) =>
      match context g with
      | .error _ => .noContext
      | .ok ctx => .running ctx g

/-- A small environment to run `loadContext` in: only the default
configuration path can be opened, and the context built from it is `7`. -/
def sampleLoadEnv : LoadEnv Unit Nat String where
  osOpen := fun path =>
    if path = "/etc/omegaup/grader/config.json" then .ok () else .error "no such file"
  graderNewContext := fun _ => .ok 7

/-! ## Configuration values and `encoding/json` (`common/context.go`) -/

/-- A value of one of the Go types occurring in `Config`, as the
reflection-based JSON decoder sees it: a leaf of a basic type, or a struct
given by its exported fields in declaration order.  `Byte` and `Duration`
are `base.Byte` and `base.Duration` (nanoseconds). -/
inductive GoValue where
  | bool (b : Bool)
  | int (n : Int)
  | uint16 (n : Nat)
  | string (s : String)
  | Byte (n : Int)
  | Duration (n : Int)
  | struct (fields : List (String × GoValue))

/-- The `Config` struct of `common/context.go` and its nested structs. -/
abbrev Config := GoValue

/-- The constant `time.Second`, in nanoseconds. -/
def Second : Int := 1000000000

/-- The constant `base.Mebibyte`, in bytes. -/
def Mebibyte : Int := 1024 * 1024

/-- The constant `base.Gibibyte`, in bytes. -/
def Gibibyte : Int := 1024 * Mebibyte

/-- The initial value of the package variable `defaultConfig`
(context.go:126-204).  Fields are listed in the declaration order of the
struct types (context.go:15-124); every field is set by the literal. -/
def defaultConfig : Config :=
  .struct [
    ("Broadcaster", .struct [
      ("ChannelLength", .int 10),
      ("EventsPort", .uint16 22291),
      ("FrontendURL", .string "https://omegaup.com"),
      ("PingPeriod", .Duration (30 * Second)),
      ("Port", .uint16 32672),
      ("Proxied", .bool true),
      ("ScoreboardUpdateSecret", .string "secret"),
      ("ScoreboardUpdateTimeout", .Duration (10 * Second)),
      ("TLS", .struct [
        ("CertFile", .string "/etc/omegaup/broadcaster/certificate.pem"),
        ("KeyFile", .string "/etc/omegaup/broadcaster/key.pem")]),
      ("WriteDeadline", .Duration (5 * Second))]),
    ("InputManager", .struct [
      ("CacheSize", .Byte Gibibyte)]),
    ("Grader", .struct [
      ("ChannelLength", .int 1024),
      ("Port", .uint16 11302),
      ("RuntimePath", .string "/var/lib/omegaup/"),
      ("MaxGradeRetries", .int 3),
      ("BroadcasterURL", .string "https://omegaup.com:32672/broadcast/"),
      ("V1", .struct [
        ("Enabled", .bool false),
        ("Port", .uint16 21680),
        ("RuntimeGradePath", .string "/var/lib/omegaup/grade"),
        ("RuntimePath", .string "/var/lib/omegaup/"),
        ("SendBroadcast", .bool true),
        ("UpdateDatabase", .bool true)]),
      ("Ephemeral", .struct [
        ("EphemeralSizeLimit", .Byte Gibibyte),
        ("CaseTimeLimit", .Duration (10 * Second)),
        ("OverallWallTimeLimit", .Duration (10 * Second)),
        ("MemoryLimit", .Byte Gibibyte),
        ("PingPeriod", .Duration (30 * Second)),
        ("Port", .uint16 36663),
        ("Proxied", .bool true),
        ("TLS", .struct [
          ("CertFile", .string "/etc/omegaup/grader/web-certificate.pem"),
          ("KeyFile", .string "/etc/omegaup/grader/web-key.pem")]),
        ("WriteDeadline", .Duration (5 * Second))]),
      ("CI", .struct [
        ("CISizeLimit", .Byte (256 * Mebibyte))]),
      ("WriteGradeFiles", .bool true)]),
    ("Db", .struct [
      ("Driver", .string "sqlite3"),
      ("DataSourceName", .string "./omegaup.db")]),
    ("Logging", .struct [
      ("File", .string "/var/log/omegaup/service.log"),
      ("Level", .string "info")]),
    ("Metrics", .struct [
      ("Port", .uint16 6060)]),
    ("Tracing", .struct [
      ("Enabled", .bool true),
      ("File", .string "/var/log/omegaup/tracing.json")]),
    ("Runner", .struct [
      ("GraderURL", .string "https://omegaup.com:11302"),
      ("RuntimePath", .string "/var/lib/omegaup/runner"),
      ("CompileTimeLimit", .Duration (30 * Second)),
      ("CompileOutputLimit", .Byte (10 * Mebibyte)),
      ("PreserveFiles", .bool false)]),
    ("TLS", .struct [
      ("CertFile", .string "/etc/omegaup/grader/certificate.pem"),
      ("KeyFile", .string "/etc/omegaup/grader/key.pem")])]

/-- A JSON value as delivered by the scanner of `encoding/json`; a number is
kept as its literal text. -/
inductive Json where
  | null
  | bool (b : Bool)
  | num (lit : String)
  | str (s : String)
  | arr (items : List Json)
  | obj (members : List (String × Json))

/-- The errors `(*json.Decoder).Decode` returns: a failure to read one
complete JSON value from the reader (read error, end of input, syntax error),
an `UnmarshalTypeError`, or the error of an `UnmarshalJSON` method. -/
inductive DecodeError where
  | read (msg : String)
  | unmarshalType (value : String) (goType : String)
  | unmarshaler (msg : String)
deriving DecidableEq, Repr

/-- The parts of the decoder that live outside the repository and that the
model does not fix: the case folding used to match object keys with field
names, and the `UnmarshalJSON` methods of `base.Byte` and `base.Duration`
(given the JSON value and the current value of the field). -/
structure JsonEnv where
  equalFold : String → String → Bool
  unmarshalByte : Json → Int → Except String Int
  unmarshalDuration : Json → Int → Except String Int

/-- The Go type of a value, as named in an `UnmarshalTypeError`. -/
def GoValue.typeName : GoValue → String
  | .bool _ => "bool"
  | .int _ => "int"
  | .uint16 _ => "uint16"
  | .string _ => "string"
  | .Byte _ => "base.Byte"
  | .Duration _ => "base.Duration"
  | .struct _ => "struct"

/-- The value of the field called `name`. -/
def getField (name : String) : List (String × GoValue) → Option GoValue
  | [] => none
  | (n, w) :: fs => if n = name then some w else getField name fs

/-- The fields with the one called `name` set to `v`. -/
def setField (name : String) (v : GoValue) :
    List (String × GoValue) → List (String × GoValue)
  | [] => []
  | (n, w) :: fs => if n = name then (n, v) :: fs else (n, w) :: setField name v fs

/-- The field an object key is decoded into: the field whose name is the
key, else the first field whose name equals the key under case folding, else
none (the member is skipped). -/
def findField (equalFold : String → String → Bool) (key : String)
    (fields : List (String × GoValue)) : Option String :=
  match fields.find? (fun f => f.1 = key) with
  | some f => some f.1
  | none => (fields.find? (fun f => equalFold f.1 key)).map (fun f => f.1)

/-- The decoder's `saveError`: remembers the first type error and goes on. -/
def saveError (saved : Option DecodeError) (err : DecodeError) : Option DecodeError :=
  match saved with
  | none => some err
  | some e => some e

/-- The value of a non-empty string of decimal digits. -/
def digitsValue (cs : List Char) : Option Nat :=
  if cs ≠ [] ∧ cs.all Char.isDigit = true then
    some (cs.foldl (fun n c => 10 * n + (c.toNat - 48)) 0)
  else none

/-- The function `strconv.ParseInt(s, 10, 64)` on a JSON number literal: an
optional minus sign and digits, within the range of `int64`. -/
def parseInt (lit : String) : Option Int :=
  let r : Option Int :=
    match lit.toList with
    | '-' :: ds => (digitsValue ds).map (fun n => -(n : Int))
    | ds => (digitsValue ds).map (fun n => (n : Int))
  match r with
  | some n => if -(2 : Int) ^ 63 ≤ n ∧ n < (2 : Int) ^ 63 then some n else none
  | none => none

/-- The function `strconv.ParseUint(s, 10, 64)` on a JSON number literal:
digits only, below `2^64`. -/
def parseUint (lit : String) : Option Nat :=
  match digitsValue lit.toList with
  | some n => if n < 2 ^ 64 then some n else none
  | none => none

mutual
/-- The decoder's `value` method: decodes the JSON value into the Go value
`v`, threading the saved first type error.  A type with an `UnmarshalJSON`
method receives every JSON value and its error aborts the decoding; `null`
leaves any other value as it is; an object is decoded member by member into
a struct; a literal of the wrong kind or a number out of range leaves the
value as it is and saves an `UnmarshalTypeError`. -/
def decodeValue (env : JsonEnv) :
    Json → GoValue → Option DecodeError → Except DecodeError (GoValue × Option DecodeError)
  | j, .Byte n, saved =>
    match env.unmarshalByte j n with
    | .ok n' => .ok (.Byte n', saved)
    | .error msg => .error (.unmarshaler msg)
  | j, .Duration n, saved =>
    match env.unmarshalDuration j n with
    | .ok n' => .ok (.Duration n', saved)
    | .error msg => .error (.unmarshaler msg)
  | .null, v, saved => .ok (v, saved)
  | .obj members, .struct fields, saved =>
    match decodeMembers env members fields saved with
    | .ok (fields', saved') => .ok (.struct fields', saved')
    | .error err => .error err
  | .obj _, v, saved => .ok (v, saveError saved (.unmarshalType "object" v.typeName))
  | .arr _, v, saved => .ok (v, saveError saved (.unmarshalType "array" v.typeName))
  | .bool b, .bool _, saved => .ok (.bool b, saved)
  | .bool _, v, saved => .ok (v, saveError saved (.unmarshalType "bool" v.typeName))
  | .str s, .string _, saved => .ok (.string s, saved)
  | .str _, v, saved => .ok (v, saveError saved (.unmarshalType "string" v.typeName))
  | .num lit, .int n, saved =>
    match parseInt lit with
    | some n' => .ok (.int n', saved)
    | none => .ok (.int n, saveError saved (.unmarshalType ("number " ++ lit) "int"))
  | .num lit, .uint16 n, saved =>
    match parseUint lit with
    | some n' =>
      if n' < 2 ^ 16 then .ok (.uint16 n', saved)
      else .ok (.uint16 n, saveError saved (.unmarshalType ("number " ++ lit) "uint16"))
    | none => .ok (.uint16 n, saveError saved (.unmarshalType ("number " ++ lit) "uint16"))
  | .num _, v, saved => .ok (v, saveError saved (.unmarshalType "number" v.typeName))
/-- The decoder's `object` method on a struct: the members in order, each
decoded into the field its key selects, or skipped when it selects none. -/
def decodeMembers (env : JsonEnv) :
    List (String × Json) → List (String × GoValue) → Option DecodeError →
      Except DecodeError (List (String × GoValue) × Option DecodeError)
  | [], fields, saved => .ok (fields, saved)
  | (key, j) :: rest, fields, saved =>
    match findField env.equalFold key fields with
    | none => decodeMembers env rest fields saved
    | some f =>
      match getField f fields with
      | none => decodeMembers env rest fields saved
      | some w =>
        match decodeValue env j w saved with
        | .error err => .error err
        | .ok (w', saved') => decodeMembers env rest (setField f w' fields) saved'
end

/-- What a `json.Decoder` finds on its reader: no complete JSON value (the
read failed, the input ended or is not JSON), or a first JSON value. -/
inductive ReaderInput where
  | failure (msg : String)
  | value (j : Json)

/-- The call `json.NewDecoder(reader).Decode(&v)`: reads one JSON value and
unmarshals it into `v`; an `UnmarshalJSON` error is returned at once, a saved
type error at the end. -/
def jsonDecode (env : JsonEnv) (reader : ReaderInput) (v : GoValue) :
    Except DecodeError GoValue :=
  match reader with
  | .failure msg => .error (.read msg)
  | .value j =>
    match decodeValue env j v none with
    | .error err => .error err
    | .ok (_, some err) => .error err
    | .ok (v', none) => .ok v'

mutual
/-- Whether the JSON value names the field reached by the path of field
names: at each level an object has a member whose key is the field's name,
exactly or under case folding. -/
def Json.mentions (equalFold : String → String → Bool) : Json → List String → Bool
  | _, [] => true
  | .obj members, f :: rest => membersMention equalFold members f rest
  | _, _ :: _ => false
/-- Whether some member of an object names the field `f` and, below it, the
rest of the path. -/
def membersMention (equalFold : String → String → Bool) :
    List (String × Json) → String → List String → Bool
  | [], _, _ => false
  | (key, j) :: ms, f, rest =>
    ((key = f || equalFold f key) && j.mentions equalFold rest)
      || membersMention equalFold ms f rest
end

/-- The value found in `v` by following a path of field names. -/
def getPath : List String → GoValue → Option GoValue
  | [], v => some v
  | f :: rest, .struct fields =>
    match getField f fields with
    | some w => getPath rest w
    | none => none
  | _ :: _, _ => none

/-! ## The store: the package variable and allocated objects -/

/-- The places a `Config` lives at: the package variable `defaultConfig`, a
heap object made by `NewConfig` (its escaping local `config`), or the `Config`
field of an allocated `Context`. -/
inductive ConfigAddr where
  | defaultConfig
  | heap (i : Nat)
  | context (i : Nat)
deriving DecidableEq, Repr

/-- The part of the program state the configuration code works on. -/
structure Store where
  defaultConfig : Config
  configs : List Config
  contexts : List (Context Config)

/-- The store at program start. -/
def Store.init : Store :=
  { defaultConfig := Quark.defaultConfig, configs := [], contexts := [] }

/-- The `Config` stored at an address (`none`: nothing allocated there). -/
def Store.read (σ : Store) : ConfigAddr → Option Config
  | .defaultConfig => some σ.defaultConfig
  | .heap i => σ.configs[i]?
  | .context i => (σ.contexts[i]?).map (fun c => c.Config)

/-- An assignment `*a = c` through a `Config` pointer. -/
def Store.write (σ : Store) (a : ConfigAddr) (c : Config) : Store :=
  match a with
  | .defaultConfig => { σ with defaultConfig := c }
  | .heap i => { σ with configs := σ.configs.set i c }
  | .context i =>
    { σ with contexts := σ.contexts.modify (fun x => { x with Config := c }) i }

/-- The function `DefaultConfig` (context.go:226-228): returns the value of
`defaultConfig`, a struct passed by value. -/
def DefaultConfig (σ : Store) : Config :=
  σ.defaultConfig

/-- The function `NewConfig` (context.go:231-241): copies `defaultConfig`
into the local `config`, decodes the reader into it and returns either
`(nil, err)` or the address of `config`, a fresh heap object. -/
def NewConfig (env : JsonEnv) (reader : ReaderInput) (σ : Store) :
    (Option ConfigAddr × Option DecodeError) × Store :=
  let config := σ.defaultConfig
  match jsonDecode env reader config with
  | .error err => ((none, some err), σ)
  | .ok config' =>
    ((some (.heap σ.configs.length), none), { σ with configs := σ.configs ++ [config'] })

/-- The string in a field of a configuration. -/
def stringField (path : List String) (config : Config) : String :=
  match getPath path config with
  | some (.string s) => s
  | _ => ""

/-- The boolean in a field of a configuration. -/
def boolField (path : List String) (config : Config) : Bool :=
  match getPath path config with
  | some (.bool b) => b
  | _ => false

/-- The collaborators of `NewContext` that may fail: `base.RotatingLog(file,
level)` and `base.NewRotatingFile(file, ...)`. -/
structure ContextEnv where
  RotatingLog : String → String → Except String Unit
  NewRotatingFile : String → Except String Unit

/-- The function `NewContext` (context.go:247-297): builds a `Context` whose
`Config` is a copy of `*config` and which has no log buffer and no memory
collector, sets up logging and tracing, and returns either `(nil, err)` or
the address of the new context (its index among the allocated contexts).  A
`nil` or dangling `config` panics. -/
def NewContext (env : ContextEnv) (config : ConfigAddr) (σ : Store) :
    Except Panic ((Option Nat × Option String) × Store) :=
  match σ.read config with
  | none => .error .nilDereference
  | some cfg =>
    let context : Context Config :=
      { Config := cfg, logBuffer := none, memoryCollector := none }
    let logging : Except String Unit :=
      if stringField ["Logging", "File"] cfg ≠ "" then
        env.RotatingLog (stringField ["Logging", "File"] context.Config)
          (stringField ["Logging", "Level"] context.Config)
      else .ok ()
    match logging with
    | .error err => .ok ((none, some err), σ)
    | .ok _ =>
      let tracing : Except String Unit :=
        if boolField ["Tracing", "Enabled"] context.Config then
          env.NewRotatingFile (stringField ["Tracing", "File"] context.Config)
        else .ok ()
      match tracing with
      | .error err => .ok ((none, some err), σ)
      | .ok _ =>
        .ok ((some σ.contexts.length, none), { σ with contexts := σ.contexts ++ [context] })

/-- ASCII case folding of object keys, the part of `bytes.EqualFold` that
matters for keys made of ASCII letters. -/
def asciiEqualFold (a b : String) : Bool :=
  a.toList.map Char.toLower = b.toList.map Char.toLower

/-- A decoder environment to run the model in: ASCII key folding, and
`UnmarshalJSON` methods that accept an integer number of bytes or of
nanoseconds. -/
def sampleJsonEnv : JsonEnv where
  equalFold := asciiEqualFold
  unmarshalByte := fun j n =>
    match j with
    | .null => .ok n
    | .num lit =>
      match parseInt lit with
      | some k => .ok k
      | none => .error "invalid size"
    | _ => .error "invalid size"
  unmarshalDuration := fun j n =>
    match j with
    | .null => .ok n
    | .num lit =>
      match parseInt lit with
      | some k => .ok k
      | none => .error "invalid duration"
    | _ => .error "invalid duration"

/-- What the caller of `NewConfig` receives: the `Config` the returned
pointer refers to (`none` for `nil`) and the error. -/
def configResult (r : (Option ConfigAddr × Option DecodeError) × Store) :
    Option Config × Option DecodeError :=
  (r.1.1.bind r.2.read, r.1.2)

/-- A `NewContext` environment in which logging and tracing can be set up. -/
def sampleContextEnv : ContextEnv where
  RotatingLog := fun _ _ => .ok ()
  NewRotatingFile := fun _ => .ok ()

/-! ## Paths (`path/filepath` on Unix) and `wrappedFileSystem.Open` -/

/-- The constant `filepath.Separator` on Unix, the byte `/`. -/
def Separator : UInt8 := 47

/-- The byte `.`. -/
def dotByte : UInt8 := 46

/-- The function `os.IsPathSeparator` on Unix. -/
def isPathSeparator (c : UInt8) : Bool := c = Separator

/-- The test `r == n || os.IsPathSeparator(path[r])` on the rest `path[r:]`. -/
def atEndOrSeparator : Bytes → Bool
  | [] => true
  | c :: _ => isPathSeparator c

/-- The inner loop of the `..` case of `Clean`, entered after `out.w--` with
`w` the new `out.w`: `for out.w > dotdot && !os.IsPathSeparator(out.index(out.w))
{ out.w-- }`.  Returns the final `out.w`. -/
def backtrackIndex (buf : Bytes) (dotdot : Nat) : Nat → Nat
  | 0 => 0
  | w + 1 =>
    if w + 1 > dotdot ∧ isPathSeparator (buf.getD (w + 1) 0) = false then
      backtrackIndex buf dotdot w
    else w + 1

/-- The main loop of `filepath.Clean`.  The arguments are the number of
iterations still allowed, the unread rest of the path `path[r:]`, the output
written so far `out[0:w]` and `dotdot`.  Each iteration reads at least one
byte, so as many iterations as the path has bytes are always enough; `none`
means the allowance ran out before the path was read. -/
def cleanLoop (rooted : Bool) : Nat → Bytes → Bytes → Nat → Option Bytes
  | _, [], out, _ => some out
  | 0, _ :: _, _, _ => none
  | fuel + 1, c :: rest, out, dotdot =>
    if isPathSeparator c then
      cleanLoop rooted fuel rest out dotdot
    else if c = dotByte ∧ atEndOrSeparator rest then
      cleanLoop rooted fuel rest out dotdot
    else if c = dotByte ∧ rest.head? = some dotByte ∧ atEndOrSeparator rest.tail then
      if out.length > dotdot then
        cleanLoop rooted fuel rest.tail
          (out.take (backtrackIndex out dotdot (out.length - 1))) dotdot
      else if !rooted then
        let out' := (if out.length > 0 then out ++ [Separator] else out) ++ [dotByte, dotByte]
        cleanLoop rooted fuel rest.tail out' out'.length
      else
        cleanLoop rooted fuel rest.tail out dotdot
    else
      let out' :=
        if (rooted && out.length != 1) || (!rooted && out.length != 0) then
          out ++ [Separator]
        else out
      cleanLoop rooted fuel (rest.dropWhile (fun b => !isPathSeparator b))
        (out' ++ c :: rest.takeWhile (fun b => !isPathSeparator b)) dotdot

/-- The function `filepath.Clean` on Unix (no volume name, `FromSlash` is
the identity). -/
def Clean (path : Bytes) : Option Bytes :=
  match path with
  | [] => some [dotByte]
  | c :: rest =>
    let rooted := isPathSeparator c
    let r :=
      if rooted then cleanLoop rooted path.length rest [Separator] 1
      else cleanLoop rooted path.length path [] 0
    match r with
    | none => none
    | some out => some (if out.length = 0 then [dotByte] else out)

/-- The function `strings.Join(elems, sep)`. -/
def stringsJoin (sep : Bytes) : List Bytes → Bytes
  | [] => []
  | [e] => e
  | e :: es => e ++ sep ++ stringsJoin sep es

/-- The function `filepath.Join` on Unix: the elements from the first
non-empty one on, joined with `/` and cleaned; the empty string when all are
empty. -/
def Join : List Bytes → Option Bytes
  | [] => some []
  | e :: es => if e ≠ [] then Clean (stringsJoin [Separator] (e :: es)) else Join es

/-- What `wrappedFileSystem.Open` asks for: `os.Open(path)`, or the wrapped
file system's `Open(name)`. -/
inductive OpenRequest where
  | osOpen (path : Bytes)
  | fileSystemOpen (name : Bytes)
deriving DecidableEq, Repr

/-- The method `wrappedFileSystem.Open` (main.go:126-135) up to the call it
delegates to. -/
def wrappedFileSystemOpen (skipAssets : Bool) (name : Bytes) : Option OpenRequest :=
  if skipAssets then
    match Join [ascii "/", name] with
    | none => none
    | some joined =>
      match Clean joined with
      | none => none
      | some cleaned => some (.osOpen (ascii "/data" ++ cleaned))
  else some (.fileSystemOpen name)

/-- The segments of a path: the pieces between its separators. -/
def segments : Bytes → List Bytes
  | [] => [[]]
  | c :: cs =>
    if isPathSeparator c then [] :: segments cs
    else
      match segments cs with
      | [] => [[c]]
      | s :: ss => (c :: s) :: ss

/-- A path element as `Clean` writes it: not empty, without separator, and
neither `.` nor `..`. -/
def GoodSegment (s : Bytes) : Prop :=
  s ≠ [] ∧ (∀ b ∈ s, isPathSeparator b = false) ∧ s ≠ [dotByte] ∧ s ≠ [dotByte, dotByte]

/-- The elements written one after the other, each behind a separator. -/
def render : List Bytes → Bytes
  | [] => []
  | s :: ss => Separator :: s ++ render ss

/-- The rooted path with the given elements; the root itself when there are
none. -/
def renderRooted (segs : List Bytes) : Bytes :=
  match segs with
  | [] => [Separator]
  | _ :: _ => render segs


/-! ## Theorems -/

theorem gaugeTotal_append (name : String) (xs ys : List MetricCall) :
    gaugeTotal name (xs ++ ys) = gaugeTotal name xs + gaugeTotal name ys := by
  induction xs with
  | nil => simp [gaugeTotal]
  | cons c cs ih =>
    cases c with
    | GaugeAdd n v => simp [gaugeTotal, ih, add_assoc]
    | SummaryObserve n d => simp [gaugeTotal, ih]

theorem queEventsProcessor_append (K : GraderConsts) (xs ys : List QueueEvent) :
    queEventsProcessor K (xs ++ ys) = queEventsProcessor K xs ++ queEventsProcessor K ys := by
  induction xs with
  | nil => simp [queEventsProcessor]
  | cons e es ih => simp [queEventsProcessor, ih]

theorem distinct_added_removed (K : GraderConsts) (hK : K.Distinct) :
    K.QueueEventTypeManagerAdded ≠ K.QueueEventTypeManagerRemoved := by
  have h := hK.1
  simp [GraderConsts.eventTypes] at h
  exact h.1.1

theorem gaugeTotal_length_processEvent (K : GraderConsts) (hK : K.Distinct) (e : QueueEvent) :
    gaugeTotal "grader_queue_total_length" (processEvent K e)
      = (if e.Typ = K.QueueEventTypeManagerAdded then 1 else 0)
        - (if e.Typ = K.QueueEventTypeManagerRemoved then 1 else 0) := by
  have hne := distinct_added_removed K hK
  unfold processEvent
  split_ifs <;> simp_all [gaugeTotal]

/-- C1: for every finite sequence of events, the net amount `queEventsProcessor`
adds to the gauge `grader_queue_total_length` is the number of manager-added
events minus the number of manager-removed events; a manager-added event makes
exactly one update of that gauge, by `+1`, a manager-removed event exactly one,
by `-1`, and an event of any other type makes no call on that gauge. -/
theorem queue_total_length_net (K : GraderConsts) (hK : K.Distinct)
    (events : List QueueEvent) :
    gaugeTotal "grader_queue_total_length" (queEventsProcessor K events)
        = (countType K.QueueEventTypeManagerAdded events : Int)
          - (countType K.QueueEventTypeManagerRemoved events : Int)
    ∧ (∀ e : QueueEvent, e.Typ = K.QueueEventTypeManagerAdded →
        (processEvent K e).filter (fun c => c.name = "grader_queue_total_length")
          = [.GaugeAdd "grader_queue_total_length" 1])
    ∧ (∀ e : QueueEvent, e.Typ = K.QueueEventTypeManagerRemoved →
        (processEvent K e).filter (fun c => c.name = "grader_queue_total_length")
          = [.GaugeAdd "grader_queue_total_length" (-1)])
    ∧ (∀ e : QueueEvent, e.Typ ≠ K.QueueEventTypeManagerAdded →
        e.Typ ≠ K.QueueEventTypeManagerRemoved →
        (processEvent K e).filter (fun c => c.name = "grader_queue_total_length") = []) := by
  have hne := distinct_added_removed K hK
  refine ⟨?_, ?_, ?_, ?_⟩
  · induction events with
    | nil => simp [queEventsProcessor, gaugeTotal, countType]
    | cons e es ih =>
      simp only [queEventsProcessor, gaugeTotal_append, ih,
        gaugeTotal_length_processEvent K hK e, countType, List.countP_cons]
      by_cases h1 : e.Typ = K.QueueEventTypeManagerAdded <;>
        by_cases h2 : e.Typ = K.QueueEventTypeManagerRemoved <;>
        simp [h1, h2] <;> omega
  · intro e h
    simp [processEvent, h, MetricCall.name]
  · intro e h
    have h' : e.Typ ≠ K.QueueEventTypeManagerAdded := by rw [h]; exact fun x => hne x.symm
    simp [processEvent, h, h', hne.symm, MetricCall.name]
  · intro e h1 h2
    unfold processEvent
    split_ifs <;> simp_all [MetricCall.name]

/-- Witness for C1 on a four-event run of the processor. -/
theorem queue_total_length_net_witness :
    sampleConsts.Distinct ∧
    gaugeTotal "grader_queue_total_length"
      (queEventsProcessor sampleConsts [⟨0, 2, 0⟩, ⟨0, 1, 0⟩, ⟨7, 2, 1⟩, ⟨7, 2, 3⟩]) = 1 := by
  refine ⟨by decide, ?_⟩
  have h := (queue_total_length_net sampleConsts (by decide)
    [⟨0, 2, 0⟩, ⟨0, 1, 0⟩, ⟨7, 2, 1⟩, ⟨7, 2, 3⟩]).1
  rw [h]
  decide

theorem distinct_eventTypes (K : GraderConsts) (hK : K.Distinct) :
    (K.QueueEventTypeManagerAdded ≠ K.QueueEventTypeManagerRemoved
      ∧ K.QueueEventTypeManagerAdded ≠ K.QueueEventTypeQueueRemoved
      ∧ K.QueueEventTypeManagerAdded ≠ K.QueueEventTypeRetried
      ∧ K.QueueEventTypeManagerAdded ≠ K.QueueEventTypeAbandoned)
    ∧ (K.QueueEventTypeManagerRemoved ≠ K.QueueEventTypeQueueRemoved
      ∧ K.QueueEventTypeManagerRemoved ≠ K.QueueEventTypeRetried
      ∧ K.QueueEventTypeManagerRemoved ≠ K.QueueEventTypeAbandoned)
    ∧ (K.QueueEventTypeQueueRemoved ≠ K.QueueEventTypeRetried
      ∧ K.QueueEventTypeQueueRemoved ≠ K.QueueEventTypeAbandoned)
    ∧ K.QueueEventTypeRetried ≠ K.QueueEventTypeAbandoned := by
  have h := hK.1
  simp only [GraderConsts.eventTypes, List.nodup_cons, List.mem_cons, List.mem_singleton,
    not_or, List.not_mem_nil, not_false_eq_true, List.nodup_nil, and_true] at h
  tauto

theorem distinct_priorities (K : GraderConsts) (hK : K.Distinct) :
    (K.QueuePriorityEphemeral ≠ K.QueuePriorityLow
      ∧ K.QueuePriorityEphemeral ≠ K.QueuePriorityNormal
      ∧ K.QueuePriorityEphemeral ≠ K.QueuePriorityHigh)
    ∧ (K.QueuePriorityLow ≠ K.QueuePriorityNormal
      ∧ K.QueuePriorityLow ≠ K.QueuePriorityHigh)
    ∧ K.QueuePriorityNormal ≠ K.QueuePriorityHigh := by
  have h := hK.2
  simp only [GraderConsts.priorities, List.nodup_cons, List.mem_cons, List.mem_singleton,
    not_or, List.not_mem_nil, not_false_eq_true, List.nodup_nil, and_true] at h
  tauto

/-- C2: a queue-removed event whose priority is Ephemeral, Low, Normal or High
makes `queEventsProcessor` perform exactly one metric call, a summary
observation of the event's `Delta` on the summary named for that priority, and
nothing else: wherever the event stands in the sequence the processor
receives, the calls it makes are those for the events before it, then that
one observation, then those for the events after it.  The four summary names
are pairwise distinct. -/
theorem queue_removed_observes_priority_summary (K : GraderConsts) (hK : K.Distinct)
    (e : QueueEvent) (hT : e.Typ = K.QueueEventTypeQueueRemoved) :
    (e.Priority = K.QueuePriorityEphemeral →
      processEvent K e = [.SummaryObserve "grader_queue_ephemeral_delay_seconds" e.Delta])
    ∧ (e.Priority = K.QueuePriorityLow →
      processEvent K e = [.SummaryObserve "grader_queue_low_delay_seconds" e.Delta])
    ∧ (e.Priority = K.QueuePriorityNormal →
      processEvent K e = [.SummaryObserve "grader_queue_normal_delay_seconds" e.Delta])
    ∧ (e.Priority = K.QueuePriorityHigh →
      processEvent K e = [.SummaryObserve "grader_queue_high_delay_seconds" e.Delta])
    ∧ ["grader_queue_ephemeral_delay_seconds", "grader_queue_low_delay_seconds",
       "grader_queue_normal_delay_seconds", "grader_queue_high_delay_seconds"].Nodup
    ∧ (e.Priority = K.QueuePriorityEphemeral → ∀ before after : List QueueEvent,
      queEventsProcessor K (before ++ e :: after)
        = queEventsProcessor K before
          ++ [.SummaryObserve "grader_queue_ephemeral_delay_seconds" e.Delta]
          ++ queEventsProcessor K after)
    ∧ (e.Priority = K.QueuePriorityLow → ∀ before after : List QueueEvent,
      queEventsProcessor K (before ++ e :: after)
        = queEventsProcessor K before
          ++ [.SummaryObserve "grader_queue_low_delay_seconds" e.Delta]
          ++ queEventsProcessor K after)
    ∧ (e.Priority = K.QueuePriorityNormal → ∀ before after : List QueueEvent,
      queEventsProcessor K (before ++ e :: after)
        = queEventsProcessor K before
          ++ [.SummaryObserve "grader_queue_normal_delay_seconds" e.Delta]
          ++ queEventsProcessor K after)
    ∧ (e.Priority = K.QueuePriorityHigh → ∀ before after : List QueueEvent,
      queEventsProcessor K (before ++ e :: after)
        = queEventsProcessor K before
          ++ [.SummaryObserve "grader_queue_high_delay_seconds" e.Delta]
          ++ queEventsProcessor K after) := by
  have hins : ∀ (before after : List QueueEvent) (x : QueueEvent),
      queEventsProcessor K (before ++ x :: after)
        = queEventsProcessor K before ++ processEvent K x ++ queEventsProcessor K after := by
    intro before after x
    induction before with
    | nil => simp [queEventsProcessor]
    | cons b bs ih => simp [queEventsProcessor, ih]
  obtain ⟨⟨-, a2, -, -⟩, ⟨r2, -, -⟩, -, -⟩ := distinct_eventTypes K hK
  obtain ⟨⟨p1, p2, p3⟩, ⟨p4, p5⟩, p6⟩ := distinct_priorities K hK
  have hE : e.Priority = K.QueuePriorityEphemeral →
      processEvent K e = [.SummaryObserve "grader_queue_ephemeral_delay_seconds" e.Delta] := by
    intro hp
    simp [processEvent, hT, hp, a2.symm, r2.symm]
  have hL : e.Priority = K.QueuePriorityLow →
      processEvent K e = [.SummaryObserve "grader_queue_low_delay_seconds" e.Delta] := by
    intro hp
    simp [processEvent, hT, hp, a2.symm, r2.symm, p1.symm]
  have hN : e.Priority = K.QueuePriorityNormal →
      processEvent K e = [.SummaryObserve "grader_queue_normal_delay_seconds" e.Delta] := by
    intro hp
    simp [processEvent, hT, hp, a2.symm, r2.symm, p2.symm, p4.symm]
  have hH : e.Priority = K.QueuePriorityHigh →
      processEvent K e = [.SummaryObserve "grader_queue_high_delay_seconds" e.Delta] := by
    intro hp
    simp [processEvent, hT, hp, a2.symm, r2.symm, p3.symm, p5.symm, p6.symm]
  refine ⟨hE, hL, hN, hH, by decide, ?_, ?_, ?_, ?_⟩
  · intro hp before after
    rw [hins, hE hp]
  · intro hp before after
    rw [hins, hL hp]
  · intro hp before after
    rw [hins, hN hp]
  · intro hp before after
    rw [hins, hH hp]

/-- Witness for C2: a queue-removed event of priority Low that waited 7ns,
received between a manager-added and a retried event. -/
theorem queue_removed_observes_priority_summary_witness :
    sampleConsts.Distinct
    ∧ processEvent sampleConsts ⟨7, sampleConsts.QueuePriorityLow,
        sampleConsts.QueueEventTypeQueueRemoved⟩
      = [.SummaryObserve "grader_queue_low_delay_seconds" 7]
    ∧ queEventsProcessor sampleConsts
        ([⟨0, 2, 0⟩] ++ ⟨7, sampleConsts.QueuePriorityLow,
          sampleConsts.QueueEventTypeQueueRemoved⟩ :: [⟨0, 0, 4⟩])
      = queEventsProcessor sampleConsts [⟨0, 2, 0⟩]
        ++ [.SummaryObserve "grader_queue_low_delay_seconds" 7]
        ++ queEventsProcessor sampleConsts [⟨0, 0, 4⟩]
    ∧ queEventsProcessor sampleConsts
        [⟨0, 2, 0⟩, ⟨7, sampleConsts.QueuePriorityLow,
          sampleConsts.QueueEventTypeQueueRemoved⟩, ⟨0, 0, 4⟩]
      = [.GaugeAdd "grader_queue_total_length" 1,
         .SummaryObserve "grader_queue_low_delay_seconds" 7,
         .GaugeAdd "grader_runs_retry" 1] :=
  ⟨by decide,
   (queue_removed_observes_priority_summary sampleConsts (by decide)
      ⟨7, sampleConsts.QueuePriorityLow, sampleConsts.QueueEventTypeQueueRemoved⟩ rfl).2.1 rfl,
   (queue_removed_observes_priority_summary sampleConsts (by decide)
      ⟨7, sampleConsts.QueuePriorityLow, sampleConsts.QueueEventTypeQueueRemoved⟩
      rfl).2.2.2.2.2.2.1 rfl [⟨0, 2, 0⟩] [⟨0, 0, 4⟩],
   by decide⟩

/-- C3 (as stated, refuted): the processor keeps no depth metric per priority
class.  A manager-added event for lane Low and one for lane High produce the
very same metric calls, a single `+1` on `grader_queue_total_length`, although
the depth of lane Low is 1 after the first and 0 after the second; hence no
function of the emitted metrics gives the depth of each lane. -/
theorem per_priority_depth_counterexample :
    queEventsProcessor sampleConsts
        [⟨0, sampleConsts.QueuePriorityLow, sampleConsts.QueueEventTypeManagerAdded⟩]
      = [.GaugeAdd "grader_queue_total_length" 1]
    ∧ queEventsProcessor sampleConsts
        [⟨0, sampleConsts.QueuePriorityHigh, sampleConsts.QueueEventTypeManagerAdded⟩]
      = [.GaugeAdd "grader_queue_total_length" 1]
    ∧ specLaneDepth sampleConsts sampleConsts.QueuePriorityLow
        [⟨0, sampleConsts.QueuePriorityLow, sampleConsts.QueueEventTypeManagerAdded⟩] = 1
    ∧ specLaneDepth sampleConsts sampleConsts.QueuePriorityLow
        [⟨0, sampleConsts.QueuePriorityHigh, sampleConsts.QueueEventTypeManagerAdded⟩] = 0
    ∧ ¬ ∃ depth : Int → List MetricCall → Int, ∀ (p : Int) (events : List QueueEvent),
        depth p (queEventsProcessor sampleConsts events)
          = specLaneDepth sampleConsts p events := by
  refine ⟨by decide, by decide, by decide, by decide, ?_⟩
  rintro ⟨depth, h⟩
  have h1 := h sampleConsts.QueuePriorityLow
    [⟨0, sampleConsts.QueuePriorityLow, sampleConsts.QueueEventTypeManagerAdded⟩]
  have h2 := h sampleConsts.QueuePriorityLow
    [⟨0, sampleConsts.QueuePriorityHigh, sampleConsts.QueueEventTypeManagerAdded⟩]
  have e1 : queEventsProcessor sampleConsts
      [⟨0, sampleConsts.QueuePriorityLow, sampleConsts.QueueEventTypeManagerAdded⟩]
      = queEventsProcessor sampleConsts
      [⟨0, sampleConsts.QueuePriorityHigh, sampleConsts.QueueEventTypeManagerAdded⟩] := by
    decide
  have d1 : specLaneDepth sampleConsts sampleConsts.QueuePriorityLow
      [⟨0, sampleConsts.QueuePriorityLow, sampleConsts.QueueEventTypeManagerAdded⟩] = 1 := by
    decide
  have d2 : specLaneDepth sampleConsts sampleConsts.QueuePriorityLow
      [⟨0, sampleConsts.QueuePriorityHigh, sampleConsts.QueueEventTypeManagerAdded⟩] = 0 := by
    decide
  rw [e1, h2, d2] at h1
  rw [d1] at h1
  exact absurd h1 (by decide)

theorem processEvent_withPriority (K : GraderConsts) (p : QueueEvent → Int) (e : QueueEvent) :
    processEvent K (withPriority K p e) = processEvent K e := by
  unfold withPriority
  split_ifs with h
  · rfl
  · simp [processEvent, h]

theorem processEvent_gauge_names (K : GraderConsts) (e : QueueEvent) (n : String) (v : Int)
    (h : MetricCall.GaugeAdd n v ∈ processEvent K e) :
    n ∈ ["grader_queue_total_length", "grader_runs_retry", "grader_runs_abandoned"] := by
  unfold processEvent at h
  split_ifs at h <;> simp_all

/-- C3 (amended): the processor keeps one queue-depth gauge for all priority
classes together.  After any sequence of events `grader_queue_total_length`
holds the number of manager-added minus manager-removed events whatever their
priorities; every gauge it updates is one of `grader_queue_total_length`,
`grader_runs_retry`, `grader_runs_abandoned`, none of them per class; and the
priority of an event other than queue-removed influences no metric call. -/
theorem queue_depth_is_one_total_gauge (K : GraderConsts) (hK : K.Distinct)
    (events : List QueueEvent) :
    gaugeTotal "grader_queue_total_length" (queEventsProcessor K events)
        = (countType K.QueueEventTypeManagerAdded events : Int)
          - (countType K.QueueEventTypeManagerRemoved events : Int)
    ∧ (∀ (n : String) (v : Int), MetricCall.GaugeAdd n v ∈ queEventsProcessor K events →
        n ∈ ["grader_queue_total_length", "grader_runs_retry", "grader_runs_abandoned"])
    ∧ (∀ p : QueueEvent → Int,
        queEventsProcessor K (events.map (withPriority K p)) = queEventsProcessor K events) := by
  refine ⟨?_, ?_, ?_⟩
  · induction events with
    | nil => simp [queEventsProcessor, gaugeTotal, countType]
    | cons e es ih =>
      simp only [queEventsProcessor, gaugeTotal_append, ih,
        gaugeTotal_length_processEvent K hK e, countType, List.countP_cons]
      by_cases h1 : e.Typ = K.QueueEventTypeManagerAdded <;>
        by_cases h2 : e.Typ = K.QueueEventTypeManagerRemoved <;>
        simp [h1, h2] <;> omega
  · induction events with
    | nil => intro n v h; simp [queEventsProcessor] at h
    | cons e es ih =>
      intro n v h
      simp only [queEventsProcessor, List.mem_append] at h
      rcases h with h | h
      · exact processEvent_gauge_names K e n v h
      · exact ih n v h
  · intro p
    induction events with
    | nil => rfl
    | cons e es ih =>
      simp only [List.map_cons, queEventsProcessor, processEvent_withPriority, ih]

/-- Witness for C3 (amended): two runs added to different lanes, one removed. -/
theorem queue_depth_is_one_total_gauge_witness :
    sampleConsts.Distinct ∧
    gaugeTotal "grader_queue_total_length"
      (queEventsProcessor sampleConsts [⟨0, 2, 0⟩, ⟨0, 0, 0⟩, ⟨7, 2, 1⟩]) = 1 := by
  refine ⟨by decide, ?_⟩
  rw [(queue_depth_is_one_total_gauge sampleConsts (by decide)
    [⟨0, 2, 0⟩, ⟨0, 0, 0⟩, ⟨7, 2, 1⟩]).1]
  decide

theorem gaugeTotal_retry_processEvent (K : GraderConsts) (hK : K.Distinct) (e : QueueEvent) :
    gaugeTotal "grader_runs_retry" (processEvent K e)
      = if e.Typ = K.QueueEventTypeRetried then 1 else 0 := by
  obtain ⟨⟨-, -, a3, -⟩, ⟨-, r3, -⟩, ⟨q3, -⟩, -⟩ := distinct_eventTypes K hK
  unfold processEvent
  split_ifs <;> simp_all [gaugeTotal]

theorem gaugeTotal_abandoned_processEvent (K : GraderConsts) (hK : K.Distinct)
    (e : QueueEvent) :
    gaugeTotal "grader_runs_abandoned" (processEvent K e)
      = if e.Typ = K.QueueEventTypeAbandoned then 1 else 0 := by
  obtain ⟨⟨-, -, -, a4⟩, ⟨-, -, r4⟩, ⟨-, q4⟩, t4⟩ := distinct_eventTypes K hK
  unfold processEvent
  split_ifs <;> simp_all [gaugeTotal]

/-- C4: for every finite sequence of events the total added to
`grader_runs_retry` is the number of retried events and the total added to
`grader_runs_abandoned` is the number of abandoned events; a retried event
makes no call on `grader_runs_abandoned` and an abandoned event makes no call
on `grader_runs_retry`. -/
theorem retry_and_abandoned_counts (K : GraderConsts) (hK : K.Distinct)
    (events : List QueueEvent) :
    gaugeTotal "grader_runs_retry" (queEventsProcessor K events)
        = (countType K.QueueEventTypeRetried events : Int)
    ∧ gaugeTotal "grader_runs_abandoned" (queEventsProcessor K events)
        = (countType K.QueueEventTypeAbandoned events : Int)
    ∧ (∀ e : QueueEvent, e.Typ = K.QueueEventTypeRetried →
        (processEvent K e).filter (fun c => c.name = "grader_runs_abandoned") = [])
    ∧ (∀ e : QueueEvent, e.Typ = K.QueueEventTypeAbandoned →
        (processEvent K e).filter (fun c => c.name = "grader_runs_retry") = []) := by
  obtain ⟨⟨-, -, a3, a4⟩, ⟨-, r3, r4⟩, ⟨q3, q4⟩, t4⟩ := distinct_eventTypes K hK
  refine ⟨?_, ?_, ?_, ?_⟩
  · induction events with
    | nil => simp [queEventsProcessor, gaugeTotal, countType]
    | cons e es ih =>
      simp only [queEventsProcessor, gaugeTotal_append, ih,
        gaugeTotal_retry_processEvent K hK e, countType, List.countP_cons]
      by_cases h1 : e.Typ = K.QueueEventTypeRetried <;> simp [h1]
      omega
  · induction events with
    | nil => simp [queEventsProcessor, gaugeTotal, countType]
    | cons e es ih =>
      simp only [queEventsProcessor, gaugeTotal_append, ih,
        gaugeTotal_abandoned_processEvent K hK e, countType, List.countP_cons]
      by_cases h1 : e.Typ = K.QueueEventTypeAbandoned <;> simp [h1]
      omega
  · intro e h
    simp [processEvent, h, a3.symm, r3.symm, q3.symm, MetricCall.name]
  · intro e h
    simp [processEvent, h, a4.symm, r4.symm, q4.symm, t4.symm, MetricCall.name]

/-- Witness for C4: two retried events and one abandoned event among others. -/
theorem retry_and_abandoned_counts_witness :
    sampleConsts.Distinct ∧
    gaugeTotal "grader_runs_retry"
      (queEventsProcessor sampleConsts [⟨0, 0, 4⟩, ⟨0, 2, 0⟩, ⟨0, 0, 5⟩, ⟨0, 0, 4⟩]) = 2 := by
  refine ⟨by decide, ?_⟩
  rw [(retry_and_abandoned_counts sampleConsts (by decide)
    [⟨0, 0, 4⟩, ⟨0, 2, 0⟩, ⟨0, 0, 5⟩, ⟨0, 0, 4⟩]).1]
  decide

/-- C8: the processor reacts to exactly the five event types manager-added,
manager-removed, queue-removed, retried and abandoned.  An event of one of
these types (for queue-removed: with one of the four priorities) causes at
least one metric call, wherever it stands in the sequence the processor
receives; an event of any other type, and a queue-removed event of any other
priority, causes none, and the processor goes on with the events that follow
it.  For the four types other than queue-removed the calls are spelled out. -/
theorem event_types_exhaustive (K : GraderConsts) (hK : K.Distinct) :
    (∀ e : QueueEvent, e.Typ ∈ K.eventTypes →
        (e.Typ = K.QueueEventTypeQueueRemoved → e.Priority ∈ K.priorities) →
        processEvent K e ≠ [])
    ∧ (∀ e : QueueEvent, e.Typ ∉ K.eventTypes → processEvent K e = [])
    ∧ (∀ e : QueueEvent, e.Typ = K.QueueEventTypeQueueRemoved →
        e.Priority ∉ K.priorities → processEvent K e = [])
    ∧ (∀ (before after : List QueueEvent) (e : QueueEvent),
        (e.Typ ∉ K.eventTypes ∨
          (e.Typ = K.QueueEventTypeQueueRemoved ∧ e.Priority ∉ K.priorities)) →
        queEventsProcessor K (before ++ e :: after)
          = queEventsProcessor K before ++ queEventsProcessor K after)
    ∧ (∀ (before after : List QueueEvent) (e : QueueEvent), e.Typ ∈ K.eventTypes →
        (e.Typ = K.QueueEventTypeQueueRemoved → e.Priority ∈ K.priorities) →
        ∃ calls : List MetricCall, calls ≠ []
          ∧ queEventsProcessor K (before ++ e :: after)
            = queEventsProcessor K before ++ calls ++ queEventsProcessor K after)
    ∧ (∀ (before after : List QueueEvent) (e : QueueEvent),
        (e.Typ = K.QueueEventTypeManagerAdded →
          queEventsProcessor K (before ++ e :: after)
            = queEventsProcessor K before ++ [.GaugeAdd "grader_queue_total_length" 1]
              ++ queEventsProcessor K after)
        ∧ (e.Typ = K.QueueEventTypeManagerRemoved →
          queEventsProcessor K (before ++ e :: after)
            = queEventsProcessor K before
              ++ [.GaugeAdd "grader_queue_total_length" (-1),
                  .SummaryObserve "grader_queue_delay_seconds" e.Delta]
              ++ queEventsProcessor K after)
        ∧ (e.Typ = K.QueueEventTypeRetried →
          queEventsProcessor K (before ++ e :: after)
            = queEventsProcessor K before ++ [.GaugeAdd "grader_runs_retry" 1]
              ++ queEventsProcessor K after)
        ∧ (e.Typ = K.QueueEventTypeAbandoned →
          queEventsProcessor K (before ++ e :: after)
            = queEventsProcessor K before ++ [.GaugeAdd "grader_runs_abandoned" 1]
              ++ queEventsProcessor K after)) := by
  have hins : ∀ (before after : List QueueEvent) (x : QueueEvent),
      queEventsProcessor K (before ++ x :: after)
        = queEventsProcessor K before ++ processEvent K x ++ queEventsProcessor K after := by
    intro before after x
    induction before with
    | nil => simp [queEventsProcessor]
    | cons b bs ih => simp [queEventsProcessor, ih]
  obtain ⟨⟨a1, a2, a3, a4⟩, ⟨r2, r3, r4⟩, ⟨q3, q4⟩, t4⟩ := distinct_eventTypes K hK
  have hout : ∀ e : QueueEvent, e.Typ ∉ K.eventTypes → processEvent K e = [] := by
    intro e h
    simp only [GraderConsts.eventTypes, List.mem_cons, List.mem_singleton, not_or,
      List.not_mem_nil, or_false] at h
    simp [processEvent, h]
  have hprio : ∀ e : QueueEvent, e.Typ = K.QueueEventTypeQueueRemoved →
      e.Priority ∉ K.priorities → processEvent K e = [] := by
    intro e hT h
    simp only [GraderConsts.priorities, List.mem_cons, List.mem_singleton, not_or,
      List.not_mem_nil, or_false] at h
    simp [processEvent, hT, h, a2.symm, r2.symm]
  have hin : ∀ e : QueueEvent, e.Typ ∈ K.eventTypes →
      (e.Typ = K.QueueEventTypeQueueRemoved → e.Priority ∈ K.priorities) →
      processEvent K e ≠ [] := by
    intro e hmem hprio'
    simp only [GraderConsts.eventTypes, GraderConsts.priorities, List.mem_cons,
      List.mem_singleton, List.not_mem_nil, or_false] at hmem hprio'
    unfold processEvent
    split_ifs <;> simp_all
  refine ⟨hin, hout, hprio, ?_, ?_, ?_⟩
  · intro before after e h
    have he : processEvent K e = [] := by
      rcases h with h | ⟨h1, h2⟩
      · exact hout e h
      · exact hprio e h1 h2
    simp [hins, he]
  · intro before after e hmem hprio'
    exact ⟨processEvent K e, hin e hmem hprio', hins before after e⟩
  · intro before after e
    refine ⟨?_, ?_, ?_, ?_⟩
    · intro h
      rw [hins]
      simp [processEvent, h]
    · intro h
      rw [hins]
      simp [processEvent, h, a1.symm]
    · intro h
      rw [hins]
      simp [processEvent, h, a3.symm, r3.symm, q3.symm]
    · intro h
      rw [hins]
      simp [processEvent, h, a4.symm, r4.symm, q4.symm, t4.symm]

/-- Witness for C8: an event with an unknown tag between a retried and an
abandoned event is passed over, and a retried event between an unknown and an
abandoned event causes a call. -/
theorem event_types_exhaustive_witness :
    sampleConsts.Distinct
    ∧ queEventsProcessor sampleConsts ([⟨0, 0, 4⟩] ++ ⟨0, 0, 9⟩ :: [⟨0, 0, 5⟩])
      = queEventsProcessor sampleConsts [⟨0, 0, 4⟩] ++ queEventsProcessor sampleConsts [⟨0, 0, 5⟩]
    ∧ queEventsProcessor sampleConsts ([⟨0, 0, 9⟩] ++ ⟨0, 0, 4⟩ :: [⟨0, 0, 5⟩])
      = queEventsProcessor sampleConsts [⟨0, 0, 9⟩] ++ [.GaugeAdd "grader_runs_retry" 1]
        ++ queEventsProcessor sampleConsts [⟨0, 0, 5⟩]
    ∧ (∃ calls : List MetricCall, calls ≠ []
        ∧ queEventsProcessor sampleConsts ([⟨0, 0, 9⟩] ++ ⟨0, 0, 4⟩ :: [⟨0, 0, 5⟩])
          = queEventsProcessor sampleConsts [⟨0, 0, 9⟩] ++ calls
            ++ queEventsProcessor sampleConsts [⟨0, 0, 5⟩])
    ∧ queEventsProcessor sampleConsts [⟨0, 0, 4⟩, ⟨0, 0, 9⟩, ⟨0, 0, 5⟩]
      = [.GaugeAdd "grader_runs_retry" 1, .GaugeAdd "grader_runs_abandoned" 1]
    ∧ queEventsProcessor sampleConsts [⟨0, 0, 9⟩, ⟨0, 0, 4⟩, ⟨0, 0, 5⟩]
      = [.GaugeAdd "grader_runs_retry" 1, .GaugeAdd "grader_runs_abandoned" 1] :=
  ⟨by decide,
   (event_types_exhaustive sampleConsts (by decide)).2.2.2.1 [⟨0, 0, 4⟩] [⟨0, 0, 5⟩] ⟨0, 0, 9⟩
     (Or.inl (by decide)),
   ((event_types_exhaustive sampleConsts (by decide)).2.2.2.2.2
     [⟨0, 0, 9⟩] [⟨0, 0, 5⟩] ⟨0, 0, 4⟩).2.2.1 rfl,
   (event_types_exhaustive sampleConsts (by decide)).2.2.2.2.1
     [⟨0, 0, 9⟩] [⟨0, 0, 5⟩] ⟨0, 0, 4⟩ (by decide) (by decide),
   by decide, by decide⟩

/-- C6: on a context that has a log buffer, `AppendLogSection s c` succeeds and
afterwards `LogBuffer()` is the previous `LogBuffer()` followed by the header
line for `s`, the bytes `c` unchanged and the footer line for `s`; the earlier
content stays as a prefix.  A context returned by `DebugContext` has a log
buffer. -/
theorem appendLogSection_appends {Cfg : Type} (ctx : Context Cfg) (before : Bytes)
    (sectionName contents : Bytes) (h : ctx.LogBuffer = some before) :
    (∃ ctx' : Context Cfg, ctx.AppendLogSection sectionName contents = .ok ctx'
      ∧ ctx'.LogBuffer = some (before
          ++ (ascii "================  " ++ sectionName ++ ascii "  ================\n")
          ++ contents
          ++ (ascii "================ /" ++ sectionName ++ ascii "  ================\n"))
      ∧ ctx'.Config = ctx.Config ∧ ctx'.memoryCollector = ctx.memoryCollector)
    ∧ (∀ parent : Context Cfg, parent.DebugContext.LogBuffer = some []) := by
  refine ⟨?_, fun parent => rfl⟩
  cases hb : ctx.logBuffer with
  | none => simp [Context.LogBuffer, hb] at h
  | some b =>
    simp only [Context.LogBuffer, hb, Option.some.injEq] at h
    subst h
    refine ⟨{ ctx with logBuffer := some (b ++ sectionHeader sectionName ++ contents
      ++ sectionFooter sectionName) }, ?_, ?_, rfl, rfl⟩
    · simp [Context.AppendLogSection, bufferWrite, hb, bind, Except.bind, pure, Except.pure]
    · simp [Context.LogBuffer, sectionHeader, sectionFooter]

/-- Witness for C6: section `a` with contents `hi` appended to a buffer that
already holds `x`. -/
theorem appendLogSection_appends_witness :
    (⟨(), some (ascii "x"), some []⟩ : Context Unit).LogBuffer = some (ascii "x") ∧
    ∃ ctx' : Context Unit,
      (⟨(), some (ascii "x"), some []⟩ : Context Unit).AppendLogSection (ascii "a") (ascii "hi")
        = .ok ctx'
      ∧ ctx'.LogBuffer = some (ascii
          "x================  a  ================\nhi================ /a  ================\n") := by
  obtain ⟨ctx', h1, h2, -, -⟩ := (appendLogSection_appends
    (⟨(), some (ascii "x"), some []⟩ : Context Unit)
    (ascii "x") (ascii "a") (ascii "hi") rfl).1
  refine ⟨rfl, ctx', h1, ?_⟩
  rw [h2]
  decide

/-- C7: `loadContext` publishes a new global context only on success.  If
opening the configuration file fails, or building the grader context fails, it
returns that error and `globalContext` (hence what `context()` returns) is as
before; if both succeed it returns `nil` and `context()` returns the context
just built.  At startup `main` panics with the error of `loadContext`. -/
theorem loadContext_publishes_on_success {File Ctx Err : Type} (env : LoadEnv File Ctx Err)
    (configPath : String) (globalContext : Option Ctx) :
    (∀ err, env.osOpen configPath = .error err →
        loadContext env configPath globalContext = (some err, globalContext)
        ∧ context (loadContext env configPath globalContext).2 = context globalContext)
    ∧ (∀ f err, env.osOpen configPath = .ok f → env.graderNewContext f = .error err →
        loadContext env configPath globalContext = (some err, globalContext)
        ∧ context (loadContext env configPath globalContext).2 = context globalContext)
    ∧ (∀ f ctx, env.osOpen configPath = .ok f → env.graderNewContext f = .ok ctx →
        loadContext env configPath globalContext = (none, some ctx)
        ∧ context (loadContext env configPath globalContext).2 = .ok ctx)
    ∧ (∀ err, (loadContext env configPath globalContext).1 = some err →
        mainStartup env false configPath globalContext = .panicked err) := by
  refine ⟨?_, ?_, ?_, ?_⟩
  · intro err h
    simp [loadContext, h]
  · intro f err h1 h2
    simp [loadContext, h1, h2]
  · intro f ctx h1 h2
    simp [loadContext, h1, h2, context]
  · intro err h
    unfold mainStartup
    generalize loadContext env configPath globalContext = r at h
    obtain ⟨e, g⟩ := r
    simp only at h
    subst h
    simp

/-- Witness for C7: a failing open leaves the stored context `3` in place. -/
theorem loadContext_publishes_on_success_witness :
    sampleLoadEnv.osOpen "missing.json" = .error "no such file" ∧
    loadContext sampleLoadEnv "missing.json" (some 3) = (some "no such file", some 3) ∧
    context (loadContext sampleLoadEnv "missing.json" (some 3)).2 = context (some 3) :=
  ⟨rfl, (loadContext_publishes_on_success sampleLoadEnv "missing.json" (some 3)).1
    "no such file" rfl⟩

theorem getField_setField_ne (f g : String) (w : GoValue) (hne : g ≠ f) :
    ∀ fs : List (String × GoValue), getField f (setField g w fs) = getField f fs
  | [] => rfl
  | (n, x) :: fs => by
    by_cases h1 : n = g
    · subst h1
      simp [setField, getField, hne]
    · by_cases h2 : n = f
      · subst h2
        simp [setField, getField, h1]
      · simp [setField, getField, h1, h2, getField_setField_ne f g w hne fs]

theorem getField_setField_same (f : String) (w w' : GoValue) :
    ∀ fs : List (String × GoValue), getField f fs = some w →
      getField f (setField f w' fs) = some w'
  | [], h => by simp [getField] at h
  | (n, x) :: fs, h => by
    by_cases h1 : n = f
    · simp [setField, getField, h1]
    · simp only [getField, h1, if_false] at h
      simp [setField, getField, h1, getField_setField_same f w w' fs h]

theorem findField_some (eq : String → String → Bool) (key g : String)
    (fs : List (String × GoValue)) (h : findField eq key fs = some g) :
    key = g ∨ eq g key = true := by
  unfold findField at h
  cases h1 : fs.find? (fun f => f.1 = key) with
  | some x =>
    rw [h1] at h
    simp only [Option.some.injEq] at h
    have := List.find?_some h1
    simp at this
    left; rw [← h, this]
  | none =>
    rw [h1] at h
    cases h2 : fs.find? (fun f => eq f.1 key) with
    | none => rw [h2] at h; simp at h
    | some x =>
      rw [h2] at h
      simp only [Option.map_some', Option.some.injEq] at h
      have := List.find?_some h2
      simp at this
      right; rw [← h, this]

mutual
theorem decodeValue_frame (env : JsonEnv) :
    ∀ (j : Json) (v : GoValue) (saved : Option DecodeError) (v' : GoValue)
      (saved' : Option DecodeError) (f : String) (rest : List String),
      decodeValue env j v saved = .ok (v', saved') →
      j.mentions env.equalFold (f :: rest) = false →
      getPath (f :: rest) v' = getPath (f :: rest) v
  | .obj ms, .struct fs, saved, v', saved', f, rest, h, hm => by
    simp only [decodeValue] at h
    cases hd : decodeMembers env ms fs saved with
    | error e => rw [hd] at h; simp at h
    | ok r =>
      obtain ⟨fs', s'⟩ := r
      rw [hd] at h
      simp only [Except.ok.injEq, Prod.mk.injEq] at h
      rw [← h.1]
      exact decodeMembers_frame env ms fs saved fs' s' f rest hd (by simpa [Json.mentions] using hm)
  | .null, v, saved, v', saved', f, rest, h, hm => by
    cases v <;> simp only [decodeValue] at h <;> (try split at h) <;>
      first
      | (simp only [Except.ok.injEq, Prod.mk.injEq] at h; obtain ⟨rfl, -⟩ := h; simp [getPath])
      | simp at h
  | .bool b, v, saved, v', saved', f, rest, h, hm => by
    cases v <;> simp only [decodeValue] at h <;> (try split at h) <;>
      first
      | (simp only [Except.ok.injEq, Prod.mk.injEq] at h; obtain ⟨rfl, -⟩ := h; simp [getPath])
      | simp at h
  | .num lit, v, saved, v', saved', f, rest, h, hm => by
    cases v <;> simp only [decodeValue] at h <;> (try split at h) <;> (try split at h) <;>
      first
      | (simp only [Except.ok.injEq, Prod.mk.injEq] at h; obtain ⟨rfl, -⟩ := h; simp [getPath])
      | simp at h
  | .str s, v, saved, v', saved', f, rest, h, hm => by
    cases v <;> simp only [decodeValue] at h <;> (try split at h) <;>
      first
      | (simp only [Except.ok.injEq, Prod.mk.injEq] at h; obtain ⟨rfl, -⟩ := h; simp [getPath])
      | simp at h
  | .arr xs, v, saved, v', saved', f, rest, h, hm => by
    cases v <;> simp only [decodeValue] at h <;> (try split at h) <;>
      first
      | (simp only [Except.ok.injEq, Prod.mk.injEq] at h; obtain ⟨rfl, -⟩ := h; simp [getPath])
      | simp at h
  | .obj ms, .bool _, saved, v', saved', f, rest, h, hm => by
    simp only [decodeValue, Except.ok.injEq, Prod.mk.injEq] at h
    obtain ⟨rfl, -⟩ := h
    simp [getPath]
  | .obj ms, .int _, saved, v', saved', f, rest, h, hm => by
    simp only [decodeValue, Except.ok.injEq, Prod.mk.injEq] at h
    obtain ⟨rfl, -⟩ := h
    simp [getPath]
  | .obj ms, .uint16 _, saved, v', saved', f, rest, h, hm => by
    simp only [decodeValue, Except.ok.injEq, Prod.mk.injEq] at h
    obtain ⟨rfl, -⟩ := h
    simp [getPath]
  | .obj ms, .string _, saved, v', saved', f, rest, h, hm => by
    simp only [decodeValue, Except.ok.injEq, Prod.mk.injEq] at h
    obtain ⟨rfl, -⟩ := h
    simp [getPath]
  | .obj ms, .Byte _, saved, v', saved', f, rest, h, hm => by
    simp only [decodeValue] at h
    split at h
    · simp only [Except.ok.injEq, Prod.mk.injEq] at h
      obtain ⟨rfl, -⟩ := h
      simp [getPath]
    · simp at h
  | .obj ms, .Duration _, saved, v', saved', f, rest, h, hm => by
    simp only [decodeValue] at h
    split at h
    · simp only [Except.ok.injEq, Prod.mk.injEq] at h
      obtain ⟨rfl, -⟩ := h
      simp [getPath]
    · simp at h
theorem decodeMembers_frame (env : JsonEnv) :
    ∀ (ms : List (String × Json)) (fs : List (String × GoValue)) (saved : Option DecodeError)
      (fs' : List (String × GoValue)) (saved' : Option DecodeError) (f : String)
      (rest : List String),
      decodeMembers env ms fs saved = .ok (fs', saved') →
      membersMention env.equalFold ms f rest = false →
      getPath (f :: rest) (.struct fs') = getPath (f :: rest) (.struct fs)
  | [], fs, saved, fs', saved', f, rest, h, hm => by
    simp [decodeMembers] at h
    rw [h.1]
  | (key, j) :: ms, fs, saved, fs', saved', f, rest, h, hm => by
    simp only [membersMention, Bool.or_eq_false_iff, Bool.and_eq_false_iff] at hm
    obtain ⟨hm1, hm2⟩ := hm
    simp only [decodeMembers] at h
    cases hf : findField env.equalFold key fs with
    | none =>
      rw [hf] at h
      exact decodeMembers_frame env ms fs saved fs' saved' f rest h hm2
    | some g =>
      rw [hf] at h
      simp only at h
      cases hg : getField g fs with
      | none =>
        rw [hg] at h
        exact decodeMembers_frame env ms fs saved fs' saved' f rest h hm2
      | some w =>
        rw [hg] at h
        simp only at h
        cases hd : decodeValue env j w saved with
        | error e => rw [hd] at h; simp at h
        | ok r =>
          obtain ⟨w', s'⟩ := r
          rw [hd] at h
          simp only at h
          have ih := decodeMembers_frame env ms (setField g w' fs) s' fs' saved' f rest h hm2
          rw [ih]
          by_cases hgf : g = f
          · subst hgf
            have hkey := findField_some env.equalFold key g fs hf
            have hmj : j.mentions env.equalFold rest = false := by
              rcases hm1 with hm1 | hm1
              · rcases hkey with hkey | hkey <;> simp_all
              · exact hm1
            cases rest with
            | nil => simp [Json.mentions] at hmj
            | cons r rs =>
              have hv := decodeValue_frame env j w saved w' s' r rs hd hmj
              simp only [getPath, getField_setField_same g w w' fs hg, hg]
              exact hv
          · simp only [getPath, getField_setField_ne f g w' hgf fs]
end



theorem newConfig_ok (env : JsonEnv) (reader : ReaderInput) (σ : Store) (config' : Config)
    (h : jsonDecode env reader σ.defaultConfig = .ok config') :
    NewConfig env reader σ
      = ((some (.heap σ.configs.length), none), { σ with configs := σ.configs ++ [config'] }) := by
  simp [NewConfig, h]

theorem newConfig_error (env : JsonEnv) (reader : ReaderInput) (σ : Store) (err : DecodeError)
    (h : jsonDecode env reader σ.defaultConfig = .error err) :
    NewConfig env reader σ = ((none, some err), σ) := by
  simp [NewConfig, h]

theorem jsonDecode_frame (env : JsonEnv) (j : Json) (v v' : GoValue)
    (h : jsonDecode env (.value j) v = .ok v') (f : String) (rest : List String)
    (hm : j.mentions env.equalFold (f :: rest) = false) :
    getPath (f :: rest) v' = getPath (f :: rest) v := by
  simp only [jsonDecode] at h
  cases hd : decodeValue env j v none with
  | error e => rw [hd] at h; simp at h
  | ok r =>
    obtain ⟨w, s⟩ := r
    rw [hd] at h
    cases s with
    | some e => simp at h
    | none =>
      simp only [Except.ok.injEq] at h
      subst h
      exact decodeValue_frame env j v none w none f rest hd hm

theorem jsonDecode_empty_object (env : JsonEnv) (fields : List (String × GoValue)) :
    jsonDecode env (.value (.obj [])) (.struct fields) = .ok (.struct fields) := by
  simp [jsonDecode, decodeValue, decodeMembers]

/-- C5: `NewConfig` starts from the default configuration and overrides only
what the input supplies.  When it succeeds on a JSON value, every field that
the value does not mention holds in the returned `Config` the value it has in
`DefaultConfig()`; on input `{}` the returned `Config` equals
`DefaultConfig()`, in which `Grader.MaxGradeRetries` is 3 and
`InputManager.CacheSize` is 1 GiB; and whenever decoding the reader fails,
`NewConfig` returns a nil `Config` together with the decoding error. -/
theorem newConfig_overrides_only_supplied (env : JsonEnv) (σ : Store) :
    (∀ (j : Json) (p : ConfigAddr) (σ' : Store),
        NewConfig env (.value j) σ = ((some p, none), σ') →
        ∀ (f : String) (rest : List String),
          j.mentions env.equalFold (f :: rest) = false →
          (σ'.read p).bind (getPath (f :: rest)) = getPath (f :: rest) (DefaultConfig σ))
    ∧ (∀ fields, DefaultConfig σ = .struct fields →
        ∃ (p : ConfigAddr) (σ' : Store),
          NewConfig env (.value (.obj [])) σ = ((some p, none), σ')
          ∧ σ'.read p = some (DefaultConfig σ))
    ∧ (∃ (p : ConfigAddr) (σ' : Store),
        NewConfig env (.value (.obj [])) Store.init = ((some p, none), σ')
        ∧ σ'.read p = some (DefaultConfig Store.init)
        ∧ (σ'.read p).bind (getPath ["Grader", "MaxGradeRetries"]) = some (.int 3)
        ∧ (σ'.read p).bind (getPath ["InputManager", "CacheSize"]) = some (.Byte (2 ^ 30)))
    ∧ (∀ (reader : ReaderInput) (err : DecodeError),
        jsonDecode env reader (DefaultConfig σ) = .error err →
        NewConfig env reader σ = ((none, some err), σ))
    ∧ (∀ msg : String, NewConfig env (.failure msg) σ = ((none, some (.read msg)), σ)) := by
  refine ⟨?_, ?_, ?_, ?_, ?_⟩
  · intro j p σ' h f rest hm
    cases hd : jsonDecode env (.value j) σ.defaultConfig with
    | error e =>
      rw [newConfig_error env _ σ e hd] at h
      simp at h
    | ok c =>
      rw [newConfig_ok env _ σ c hd] at h
      simp only [Prod.mk.injEq, Option.some.injEq, and_true] at h
      obtain ⟨hp, hσ⟩ := h
      subst hp
      subst hσ
      simp only [Store.read, List.getElem?_concat_length, Option.bind_some, DefaultConfig]
      exact jsonDecode_frame env j σ.defaultConfig c hd f rest hm
  · intro fields hf
    simp only [DefaultConfig] at hf
    have hd := jsonDecode_empty_object env fields
    rw [← hf] at hd
    refine ⟨.heap σ.configs.length, _, newConfig_ok env _ σ _ hd, ?_⟩
    simp [Store.read, DefaultConfig]
  · have hd := jsonDecode_empty_object env
      (match Quark.defaultConfig with | .struct fs => fs | _ => [])
    refine ⟨.heap 0, _, newConfig_ok env _ Store.init _ hd, ?_, ?_, ?_⟩
    · rfl
    · rfl
    · rfl
  · intro reader err h
    exact newConfig_error env reader σ err h
  · intro msg
    exact newConfig_error env _ σ _ rfl

/-- Witness for C5: the input `{"grader": {"MaxGradeRetries": 5}}` is decoded
over the defaults; it does not mention `Grader.Port`, which keeps its default
11302. -/
theorem newConfig_overrides_only_supplied_witness :
    ∃ σ' : Store,
      NewConfig sampleJsonEnv
          (.value (.obj [("grader", .obj [("MaxGradeRetries", .num "5")])])) Store.init
        = ((some (.heap 0), none), σ')
      ∧ (σ'.read (.heap 0)).bind (getPath ["Grader", "MaxGradeRetries"]) = some (.int 5)
      ∧ (σ'.read (.heap 0)).bind (getPath ["Grader", "Port"])
          = getPath ["Grader", "Port"] (DefaultConfig Store.init)
      ∧ getPath ["Grader", "Port"] (DefaultConfig Store.init) = some (.uint16 11302) :=
  ⟨_, rfl, rfl,
    (newConfig_overrides_only_supplied sampleJsonEnv Store.init).1
      (.obj [("grader", .obj [("MaxGradeRetries", .num "5")])]) (.heap 0) _ rfl
      "Grader" ["Port"] rfl,
    rfl⟩

theorem write_defaultConfig (σ : Store) (a : ConfigAddr) (c : Config)
    (ha : a ≠ .defaultConfig) : (σ.write a c).defaultConfig = σ.defaultConfig := by
  cases a with
  | defaultConfig => exact absurd rfl ha
  | heap i => rfl
  | context i => rfl

theorem configResult_newConfig (env : JsonEnv) (reader : ReaderInput) (σ : Store) :
    configResult (NewConfig env reader σ)
      = match jsonDecode env reader σ.defaultConfig with
        | .error err => (none, some err)
        | .ok config' => (some config', none) := by
  cases hd : jsonDecode env reader σ.defaultConfig with
  | error e => simp [newConfig_error env reader σ e hd, configResult]
  | ok c => simp [newConfig_ok env reader σ c hd, configResult, Store.read]

theorem read_isSome_lt (σ : Store) (a : ConfigAddr) (h : σ.read a ≠ none) :
    match a with
    | .defaultConfig => True
    | .heap i => i < σ.configs.length
    | .context i => i < σ.contexts.length := by
  cases a with
  | defaultConfig => trivial
  | heap i =>
    simp only [Store.read, ne_eq, List.getElem?_eq_none_iff, not_le] at h
    exact h
  | context i =>
    simp only [Store.read, ne_eq, Option.map_eq_none', List.getElem?_eq_none_iff, not_le] at h
    exact h

/-- C9: the configuration defaults are never mutated.  `NewConfig`, whether it
succeeds or fails, leaves the value returned by `DefaultConfig()` as it was;
the pointer it returns is a fresh object, not the package variable; an
assignment through any `Config` pointer other than `&defaultConfig` (such as
that pointer, or a caller's copy of the result of `DefaultConfig()`) changes
neither what `DefaultConfig()` returns nor what `NewConfig` returns; and
`NewContext` leaves every existing `Config`, the caller's included, as it was,
stores an equal `Config` in the new context, and a later assignment to the
context's `Config` does not reach the caller's. -/
theorem defaults_never_mutated (env : JsonEnv) (cenv : ContextEnv) (σ : Store) :
    (∀ reader : ReaderInput, DefaultConfig (NewConfig env reader σ).2 = DefaultConfig σ)
    ∧ (∀ (reader : ReaderInput) (p : ConfigAddr), (NewConfig env reader σ).1.1 = some p →
        p ≠ .defaultConfig ∧ σ.read p = none)
    ∧ (∀ (a : ConfigAddr) (c : Config), a ≠ .defaultConfig →
        DefaultConfig (σ.write a c) = DefaultConfig σ
        ∧ ∀ reader : ReaderInput,
            configResult (NewConfig env reader (σ.write a c))
              = configResult (NewConfig env reader σ))
    ∧ (∀ (config : ConfigAddr) (r : Option Nat × Option String) (σ' : Store),
        NewContext cenv config σ = .ok (r, σ') →
        (∀ a : ConfigAddr, σ.read a ≠ none → σ'.read a = σ.read a)
        ∧ DefaultConfig σ' = DefaultConfig σ
        ∧ (∀ i : Nat, r.1 = some i →
            σ'.read (.context i) = σ.read config
            ∧ ∀ c : Config, (σ'.write (.context i) c).read config = σ.read config)) := by
  refine ⟨?_, ?_, ?_, ?_⟩
  · intro reader
    cases hd : jsonDecode env reader σ.defaultConfig with
    | error e => rw [newConfig_error env reader σ e hd]
    | ok c => rw [newConfig_ok env reader σ c hd]; rfl
  · intro reader p h
    cases hd : jsonDecode env reader σ.defaultConfig with
    | error e => rw [newConfig_error env reader σ e hd] at h; simp at h
    | ok c =>
      rw [newConfig_ok env reader σ c hd] at h
      simp only [Option.some.injEq] at h
      subst h
      exact ⟨by simp, by simp [Store.read]⟩
  · intro a c ha
    refine ⟨write_defaultConfig σ a c ha, ?_⟩
    intro reader
    rw [configResult_newConfig, configResult_newConfig, write_defaultConfig σ a c ha]
  · intro config r σ' h
    unfold NewContext at h
    cases hc : σ.read config with
    | none => rw [hc] at h; simp at h
    | some cfg =>
      rw [hc] at h
      simp only at h
      have hlt := read_isSome_lt σ config (by rw [hc]; simp)
      split at h
      · simp only [Except.ok.injEq, Prod.mk.injEq] at h
        obtain ⟨hr, hσ⟩ := h
        subst hσ
        subst hr
        exact ⟨fun _ _ => rfl, rfl, fun i hi => by simp at hi⟩
      · split at h
        · simp only [Except.ok.injEq, Prod.mk.injEq] at h
          obtain ⟨hr, hσ⟩ := h
          subst hσ
          subst hr
          exact ⟨fun _ _ => rfl, rfl, fun i hi => by simp at hi⟩
        · simp only [Except.ok.injEq, Prod.mk.injEq] at h
          obtain ⟨hr, hσ⟩ := h
          subst hσ
          subst hr
          refine ⟨?_, rfl, ?_⟩
          · intro a ha
            have hl := read_isSome_lt σ a ha
            cases a with
            | defaultConfig => rfl
            | heap i => rfl
            | context i =>
              simp only at hl
              simp [Store.read, List.getElem?_append_left hl]
          · intro i hi
            simp only [Option.some.injEq] at hi
            subst hi
            refine ⟨by simp [Store.read], ?_⟩
            intro c
            cases config with
            | defaultConfig => simpa [Store.read, Store.write] using hc
            | heap k => simpa [Store.read, Store.write] using hc
            | context k =>
              simp only at hlt
              have hne : σ.contexts.length ≠ k := by omega
              simp only [Store.read] at hc
              simp [Store.read, Store.write, List.getElem?_modify, hne,
                List.getElem?_append_left hlt, hc]

/-- Witness for C9: after `NewConfig` on `{}` and an assignment of another
value through the returned pointer, `DefaultConfig()` is still the initial
`defaultConfig`. -/
theorem defaults_never_mutated_witness :
    (NewConfig sampleJsonEnv (.value (.obj [])) Store.init).1.1 = some (.heap 0)
    ∧ ConfigAddr.heap 0 ≠ ConfigAddr.defaultConfig
    ∧ DefaultConfig
        ((NewConfig sampleJsonEnv (.value (.obj [])) Store.init).2.write (.heap 0) (.bool true))
      = DefaultConfig (NewConfig sampleJsonEnv (.value (.obj [])) Store.init).2
    ∧ DefaultConfig (NewConfig sampleJsonEnv (.value (.obj [])) Store.init).2
      = Quark.defaultConfig :=
  ⟨rfl, by decide,
    ((defaults_never_mutated sampleJsonEnv sampleContextEnv
      (NewConfig sampleJsonEnv (.value (.obj [])) Store.init).2).2.2.1
        (.heap 0) (.bool true) (by decide)).1,
    rfl⟩

theorem render_append (xs ys : List Bytes) : render (xs ++ ys) = render xs ++ render ys := by
  induction xs with
  | nil => rfl
  | cons x xs ih => simp [render, ih]

theorem length_render_pos (s : Bytes) (ss : List Bytes) (hs : s ≠ []) :
    2 ≤ (render (s :: ss)).length := by
  cases s with
  | nil => exact absurd rfl hs
  | cons a t => simp [render]

theorem renderRooted_concat (segs : List Bytes) (hsegs : ∀ s ∈ segs, GoodSegment s)
    (e : Bytes) :
    (if (true && (renderRooted segs).length != 1) || (!true && (renderRooted segs).length != 0)
        then renderRooted segs ++ [Separator] else renderRooted segs) ++ e
      = renderRooted (segs ++ [e]) := by
  cases segs with
  | nil => simp [renderRooted, render]
  | cons s ss =>
    have hs : s ≠ [] := (hsegs s (List.mem_cons_self _ _)).1
    have hL := length_render_pos s ss hs
    have hne : (render (s :: ss)).length ≠ 1 := by omega
    simp only [renderRooted, List.cons_append, Bool.true_and, Bool.not_true, Bool.false_and,
      Bool.or_false, bne_iff_ne, ne_eq, hne, not_false_eq_true, if_true]
    simp [render, render_append]

theorem backtrackIndex_eq (buf : Bytes) (dotdot m : Nat) (hd : dotdot ≤ m)
    (hm : m ≤ dotdot ∨ isPathSeparator (buf.getD m 0) = true) :
    ∀ k : Nat, (∀ i, m < i → i ≤ m + k → isPathSeparator (buf.getD i 0) = false) →
      backtrackIndex buf dotdot (m + k) = m
  | 0, _ => by
    cases m with
    | zero => rfl
    | succ w =>
      simp only [Nat.add_zero, backtrackIndex]
      rcases hm with hm | hm
      · have : ¬ (w + 1 > dotdot) := by omega
        simp only [this, false_and, if_false]
      · simp only [hm, Bool.true_eq_false, and_false, if_false]
  | k + 1, h => by
    have h1 : isPathSeparator (buf.getD (m + k + 1) 0) = false :=
      h (m + k + 1) (by omega) (by omega)
    have h2 : m + k + 1 > dotdot := by omega
    show backtrackIndex buf dotdot (m + k + 1) = m
    simp only [backtrackIndex, h1, h2, and_self, if_true]
    exact backtrackIndex_eq buf dotdot m hd hm k (fun i hi1 hi2 => h i hi1 (by omega))

theorem backtrack_renderRooted (init : List Bytes) (last : Bytes)
    (hinit : ∀ s ∈ init, GoodSegment s) (hlast : GoodSegment last) :
    (renderRooted (init ++ [last])).take
        (backtrackIndex (renderRooted (init ++ [last])) 1
          ((renderRooted (init ++ [last])).length - 1))
      = renderRooted init := by
  obtain ⟨hne, hsep, -, -⟩ := hlast
  cases init with
  | nil =>
    have hout : renderRooted ([] ++ [last]) = Separator :: last := by
      simp [renderRooted, render]
    rw [hout]
    have hlen : (Separator :: last).length - 1 = 1 + (last.length - 1) := by
      cases last with
      | nil => exact absurd rfl hne
      | cons a t => simp; omega
    rw [hlen, backtrackIndex_eq (Separator :: last) 1 1 (le_refl 1) (Or.inl (le_refl 1))]
    · simp [renderRooted]
    · intro i hi1 hi2
      obtain ⟨j, rfl⟩ : ∃ j, i = j + 1 := ⟨i - 1, by omega⟩
      have hj : j < last.length := by
        cases last with
        | nil => exact absurd rfl hne
        | cons a t => simp at hi2 ⊢; omega
      simp only [List.getD_cons_succ]
      rw [List.getD_eq_getElem _ _ hj]
      exact hsep _ (List.getElem_mem hj)
  | cons s ss =>
    have hs : s ≠ [] := (hinit s (List.mem_cons_self _ _)).1
    have hL := length_render_pos s ss hs
    have hout : renderRooted (s :: ss ++ [last]) = render (s :: ss) ++ Separator :: last := by
      simp [renderRooted, render, render_append]
    rw [hout]
    have hlen : (render (s :: ss) ++ Separator :: last).length - 1
        = (render (s :: ss)).length + last.length := by
      simp
    rw [hlen, backtrackIndex_eq _ 1 (render (s :: ss)).length (by omega)]
    · simp [renderRooted]
    · right
      rw [List.getD_append_right _ _ _ _ (le_refl _)]
      simp [isPathSeparator]
    · intro i hi1 hi2
      rw [List.getD_append_right _ _ _ _ (by omega)]
      obtain ⟨j, hj⟩ : ∃ j, i - (render (s :: ss)).length = j + 1 :=
        ⟨i - (render (s :: ss)).length - 1, by omega⟩
      rw [hj, List.getD_cons_succ]
      have hjl : j < last.length := by omega
      rw [List.getD_eq_getElem _ _ hjl]
      exact hsep _ (List.getElem_mem hjl)

theorem goodSegment_element (c : UInt8) (rest : Bytes)
    (h1 : isPathSeparator c = false)
    (h2 : ¬ (c = dotByte ∧ atEndOrSeparator rest = true))
    (h3 : ¬ (c = dotByte ∧ rest.head? = some dotByte ∧ atEndOrSeparator rest.tail = true)) :
    GoodSegment (c :: rest.takeWhile (fun b => !isPathSeparator b)) := by
  refine ⟨by simp, ?_, ?_, ?_⟩
  · intro b hb
    rcases List.mem_cons.mp hb with rfl | hb
    · exact h1
    · have := List.mem_takeWhile_imp hb
      simpa using this
  · intro h
    simp only [List.cons.injEq] at h
    obtain ⟨hc, ht⟩ := h
    apply h2
    refine ⟨hc, ?_⟩
    cases rest with
    | nil => rfl
    | cons d rest' =>
      simp only [List.takeWhile_cons] at ht
      by_cases hd : isPathSeparator d = true
      · simpa [atEndOrSeparator] using hd
      · simp [hd] at ht
  · intro h
    simp only [List.cons.injEq] at h
    obtain ⟨hc, ht⟩ := h
    apply h3
    cases rest with
    | nil => simp at ht
    | cons d rest' =>
      simp only [List.takeWhile_cons] at ht
      by_cases hd : isPathSeparator d = true
      · simp [hd] at ht
      · simp only [hd, Bool.not_false, if_true, List.cons.injEq, Bool.not_eq_true] at ht
        obtain ⟨hd1, ht'⟩ := ht
        refine ⟨hc, by simp [hd1], ?_⟩
        cases rest' with
        | nil => rfl
        | cons e rest'' =>
          simp only [List.takeWhile_cons] at ht'
          by_cases he : isPathSeparator e = true
          · simpa [atEndOrSeparator] using he
          · simp [he] at ht'

theorem length_renderRooted (segs : List Bytes) (hsegs : ∀ s ∈ segs, GoodSegment s) :
    (renderRooted segs).length > 1 ↔ segs ≠ [] := by
  cases segs with
  | nil => simp [renderRooted]
  | cons s ss =>
    have hs : s ≠ [] := (hsegs s (List.mem_cons_self _ _)).1
    have hL := length_render_pos s ss hs
    simp only [renderRooted, ne_eq, reduceCtorEq, not_false_eq_true, iff_true]
    omega

theorem cleanLoop_nil (rooted : Bool) (fuel : Nat) (out : Bytes) (dotdot : Nat) :
    cleanLoop rooted fuel [] out dotdot = some out := by
  cases fuel <;> rfl

theorem cleanLoop_rooted :
    ∀ (fuel : Nat) (p : Bytes) (segs : List Bytes), p.length ≤ fuel →
      (∀ s ∈ segs, GoodSegment s) →
      ∃ segs' : List Bytes, (∀ s ∈ segs', GoodSegment s)
        ∧ cleanLoop true fuel p (renderRooted segs) 1 = some (renderRooted segs')
  | fuel, [], segs, _, hs => ⟨segs, hs, cleanLoop_nil true fuel _ 1⟩
  | 0, _ :: _, _, hf, _ => by simp at hf
  | fuel + 1, c :: rest, segs, hf, hs => by
    have hrest : rest.length ≤ fuel := by simpa using hf
    have htail : rest.tail.length ≤ fuel := by
      have := List.length_tail rest
      omega
    simp only [cleanLoop]
    by_cases h1 : isPathSeparator c = true
    · rw [if_pos h1]
      exact cleanLoop_rooted fuel rest segs hrest hs
    rw [if_neg h1]
    by_cases h2 : c = dotByte ∧ atEndOrSeparator rest = true
    · rw [if_pos h2]
      exact cleanLoop_rooted fuel rest segs hrest hs
    rw [if_neg h2]
    by_cases h3 : c = dotByte ∧ rest.head? = some dotByte ∧ atEndOrSeparator rest.tail = true
    · rw [if_pos h3]
      by_cases h4 : (renderRooted segs).length > 1
      · rw [if_pos h4]
        have hne : segs ≠ [] := (length_renderRooted segs hs).mp h4
        obtain ⟨init, last, rfl⟩ : ∃ init last, segs = init ++ [last] :=
          ⟨segs.dropLast, segs.getLast hne, (List.dropLast_append_getLast hne).symm⟩
        have hinit : ∀ s ∈ init, GoodSegment s :=
          fun s hm => hs s (List.mem_append_left _ hm)
        have hlast : GoodSegment last := hs last (by simp)
        rw [backtrack_renderRooted init last hinit hlast]
        exact cleanLoop_rooted fuel rest.tail init htail hinit
      · rw [if_neg h4]
        simp only [Bool.not_true, Bool.false_eq_true, if_false]
        exact cleanLoop_rooted fuel rest.tail segs htail hs
    · rw [if_neg h3]
      have hgood := goodSegment_element c rest (by simpa using h1) h2 h3
      have hdrop : (rest.dropWhile (fun b => !isPathSeparator b)).length ≤ fuel :=
        le_trans (List.dropWhile_sublist _).length_le hrest
      simp only [renderRooted_concat segs hs]
      exact cleanLoop_rooted fuel _ (segs ++ [c :: rest.takeWhile (fun b => !isPathSeparator b)])
        hdrop (by
          intro s hm
          rcases List.mem_append.mp hm with hm | hm
          · exact hs s hm
          · rw [List.mem_singleton.mp hm]; exact hgood)

theorem clean_rooted (rest : Bytes) :
    ∃ segs : List Bytes, (∀ s ∈ segs, GoodSegment s)
      ∧ Clean (Separator :: rest) = some (renderRooted segs) := by
  obtain ⟨segs, hs, h⟩ := cleanLoop_rooted (Separator :: rest).length rest []
    (by simp) (by simp)
  refine ⟨segs, hs, ?_⟩
  have hr : renderRooted [] = [Separator] := rfl
  rw [hr] at h
  have hsep : isPathSeparator Separator = true := by decide
  have hlen : (renderRooted segs).length ≠ 0 := by
    cases segs <;> simp [renderRooted, render]
  simp only [List.length_cons] at h
  simp only [Clean, hsep, if_true, List.length_cons, h]
  simp [hlen]

theorem renderRooted_cons (segs : List Bytes) :
    ∃ tl : Bytes, renderRooted segs = Separator :: tl := by
  cases segs with
  | nil => exact ⟨[], rfl⟩
  | cons s ss => exact ⟨s ++ render ss, rfl⟩

theorem segments_noSep (s : Bytes) (hs : ∀ b ∈ s, isPathSeparator b = false) :
    segments s = [s] := by
  induction s with
  | nil => rfl
  | cons a t ih =>
    have ha := hs a (List.mem_cons_self _ _)
    have ht := ih (fun b hb => hs b (List.mem_cons_of_mem _ hb))
    simp [segments, ha, ht]

theorem segments_append_sep (s t : Bytes) (hs : ∀ b ∈ s, isPathSeparator b = false) :
    segments (s ++ Separator :: t) = s :: segments t := by
  induction s with
  | nil =>
    have : isPathSeparator Separator = true := by decide
    simp [segments, this]
  | cons a u ih =>
    have ha := hs a (List.mem_cons_self _ _)
    have hu := ih (fun b hb => hs b (List.mem_cons_of_mem _ hb))
    simp [segments, ha, hu]

theorem segments_render (s : Bytes) (hs : ∀ b ∈ s, isPathSeparator b = false) :
    ∀ segs : List Bytes, (∀ x ∈ segs, GoodSegment x) → segments (s ++ render segs) = s :: segs
  | [], _ => by simpa [render] using segments_noSep s hs
  | x :: xs, hx => by
    have hxg := hx x (List.mem_cons_self _ _)
    show segments (s ++ Separator :: (x ++ render xs)) = s :: x :: xs
    rw [segments_append_sep s _ hs,
      segments_render x hxg.2.1 xs (fun y hy => hx y (List.mem_cons_of_mem _ hy))]

theorem segments_data_renderRooted (segs : List Bytes) (hs : ∀ s ∈ segs, GoodSegment s) :
    segments (ascii "/data" ++ renderRooted segs)
      = [] :: ascii "data" :: (match segs with | [] => [[]] | _ :: _ => segs) := by
  have hd : ascii "/data" = Separator :: ascii "data" := by decide
  have hsep : isPathSeparator Separator = true := by decide
  have hdata : ∀ b ∈ ascii "data", isPathSeparator b = false := by decide
  rw [hd]
  show segments (Separator :: (ascii "data" ++ renderRooted segs)) = _
  rw [segments, if_pos hsep]
  cases segs with
  | nil =>
    show [] :: segments (ascii "data" ++ Separator :: []) = _
    rw [segments_append_sep _ _ hdata]
    rfl
  | cons s ss =>
    show [] :: segments (ascii "data" ++ render (s :: ss)) = _
    rw [segments_render _ hdata (s :: ss) hs]

/-- C10: with `-skip-assets`, `wrappedFileSystem.Open` opens, for every
requested name, the path `/data` followed by a cleaned absolute path: the
call succeeds in building the path, the cleaned part starts with `/`, so the
path starts with `/data/`, and no segment of the path is `..` (nor `.`). -/
theorem open_confined_to_data (name : Bytes) :
    ∃ cleaned : Bytes,
      wrappedFileSystemOpen true name = some (.osOpen (ascii "/data" ++ cleaned))
      ∧ cleaned.head? = some Separator
      ∧ ascii "/data/" <+: ascii "/data" ++ cleaned
      ∧ ascii ".." ∉ segments (ascii "/data" ++ cleaned)
      ∧ ascii "." ∉ segments (ascii "/data" ++ cleaned) := by
  have hslash : ascii "/" = [Separator] := by decide
  have hjoin : Join [ascii "/", name] = Clean (Separator :: Separator :: name) := by
    simp [Join, stringsJoin, hslash]
  obtain ⟨segs1, -, h1⟩ := clean_rooted (Separator :: name)
  obtain ⟨tl, htl⟩ := renderRooted_cons segs1
  obtain ⟨segs, hs, h2⟩ := clean_rooted tl
  obtain ⟨tl', htl'⟩ := renderRooted_cons segs
  refine ⟨renderRooted segs, ?_, ?_, ?_, ?_, ?_⟩
  · simp only [wrappedFileSystemOpen, if_true, hjoin, h1, htl, h2]
  · rw [htl']; rfl
  · have hp : ascii "/data/" = ascii "/data" ++ [Separator] := by decide
    rw [htl', hp]
    exact ⟨tl', by simp⟩
  · rw [segments_data_renderRooted segs hs]
    intro hmem
    simp only [List.mem_cons] at hmem
    rcases hmem with h | h | h
    · exact absurd h (by decide)
    · exact absurd h (by decide)
    · cases segs with
      | nil =>
        simp only [List.mem_singleton] at h
        exact absurd h (by decide)
      | cons s ss =>
        exact (hs _ h).2.2.2 (by decide)
  · rw [segments_data_renderRooted segs hs]
    intro hmem
    simp only [List.mem_cons] at hmem
    rcases hmem with h | h | h
    · exact absurd h (by decide)
    · exact absurd h (by decide)
    · cases segs with
      | nil =>
        simp only [List.mem_singleton] at h
        exact absurd h (by decide)
      | cons s ss =>
        exact (hs _ h).2.2.1 (by decide)

theorem newContext_created (cenv : ContextEnv) (config : ConfigAddr) (σ σ' : Store)
    (r : Option Nat × Option String) (i : Nat)
    (h : NewContext cenv config σ = .ok (r, σ')) (hi : r.1 = some i) :
    ∃ cfg : Config, σ.read config = some cfg
      ∧ σ'.contexts[i]? = some { Config := cfg, logBuffer := none, memoryCollector := none } := by
  unfold NewContext at h
  cases hc : σ.read config with
  | none => rw [hc] at h; simp at h
  | some cfg =>
    rw [hc] at h
    simp only at h
    refine ⟨cfg, rfl, ?_⟩
    split at h
    · simp only [Except.ok.injEq, Prod.mk.injEq] at h
      obtain ⟨hr, -⟩ := h
      subst hr
      simp at hi
    · split at h
      · simp only [Except.ok.injEq, Prod.mk.injEq] at h
        obtain ⟨hr, -⟩ := h
        subst hr
        simp at hi
      · simp only [Except.ok.injEq, Prod.mk.injEq] at h
        obtain ⟨hr, hσ⟩ := h
        subst hσ
        subst hr
        simp only [Option.some.injEq] at hi
        subst hi
        simp

/-- C11 (what the code does): a `Context` created by `NewContext` has no log
buffer and no memory collector; on it `LogBuffer()` and `TraceBuffer()` return
nil, but `AppendLogSection` does not complete: its first write goes to the nil
`logBuffer` and panics with a nil dereference, for every section name and
contents.  On the `DebugContext` child of the same context `AppendLogSection`
completes. -/
theorem appendLogSection_panics_without_buffer (cenv : ContextEnv) (config : ConfigAddr)
    (σ σ' : Store) (r : Option Nat × Option String) (i : Nat)
    (h : NewContext cenv config σ = .ok (r, σ')) (hi : r.1 = some i) :
    ∃ ctx : Context Config, σ'.contexts[i]? = some ctx
      ∧ ctx.logBuffer = none ∧ ctx.memoryCollector = none
      ∧ ctx.LogBuffer = none
      ∧ (∀ jsonMarshal, ctx.TraceBuffer jsonMarshal = none)
      ∧ (∀ sectionName contents : Bytes,
          ctx.AppendLogSection sectionName contents = .error .nilDereference)
      ∧ (∀ sectionName contents : Bytes, ∃ ctx' : Context Config,
          ctx.DebugContext.AppendLogSection sectionName contents = .ok ctx') := by
  obtain ⟨cfg, -, hctx⟩ := newContext_created cenv config σ σ' r i h hi
  refine ⟨_, hctx, rfl, rfl, rfl, fun _ => rfl, fun _ _ => rfl, ?_⟩
  intro sectionName contents
  exact ⟨_, rfl⟩

/-- Witness for C11: the context built by `NewContext` from the configuration
that `NewConfig` decodes from `{}`; appending section `a` with contents `hi`
panics. -/
theorem appendLogSection_panics_without_buffer_witness :
    ∃ (σ' : Store) (ctx : Context Config),
      NewContext sampleContextEnv (.heap 0)
          (NewConfig sampleJsonEnv (.value (.obj [])) Store.init).2
        = .ok ((some 0, none), σ')
      ∧ σ'.contexts[0]? = some ctx
      ∧ ctx.LogBuffer = none
      ∧ ctx.TraceBuffer sampleJsonMarshal = none
      ∧ ctx.AppendLogSection (ascii "a") (ascii "hi") = .error .nilDereference := by
  have h : NewContext sampleContextEnv (.heap 0)
      (NewConfig sampleJsonEnv (.value (.obj [])) Store.init).2
      = .ok ((some 0, none),
          { (NewConfig sampleJsonEnv (.value (.obj [])) Store.init).2 with
            contexts := [{ Config := Quark.defaultConfig, logBuffer := none,
                           memoryCollector := none }] }) := rfl
  obtain ⟨ctx, h1, -, -, h2, h3, h4, -⟩ :=
    appendLogSection_panics_without_buffer sampleContextEnv (.heap 0) _ _ _ 0 h rfl
  exact ⟨_, ctx, h, h1, h2, h3 sampleJsonMarshal, h4 (ascii "a") (ascii "hi")⟩

/-- Runs of `filepath.Clean` and of `wrappedFileSystem.Open` in the model on
paths with `..`, `.`, repeated and trailing separators. -/
theorem clean_examples :
    Clean (ascii "//a/../../b") = some (ascii "/b")
    ∧ Clean (ascii "a/../../b/./c//") = some (ascii "../b/c")
    ∧ Clean (ascii "/a/b/c/../..") = some (ascii "/a")
    ∧ Clean (ascii "/..a/b/...") = some (ascii "/..a/b/...")
    ∧ Clean (ascii "abc/def/../../..") = some (ascii "..")
    ∧ Clean (ascii "") = some (ascii ".")
    ∧ Clean (ascii "a/..") = some (ascii ".")
    ∧ wrappedFileSystemOpen true (ascii "../../etc/passwd")
        = some (.osOpen (ascii "/data/etc/passwd"))
    ∧ wrappedFileSystemOpen true (ascii "") = some (.osOpen (ascii "/data/"))
    ∧ segments (ascii "/data/a") = [ascii "", ascii "data", ascii "a"] := by
  decide

/-- Runs of the queue event processor and of the JSON decoder in the model. -/
theorem model_examples :
    queEventsProcessor sampleConsts [⟨5, 2, 0⟩, ⟨7, 2, 1⟩, ⟨7, 2, 3⟩, ⟨0, 0, 9⟩]
      = [.GaugeAdd "grader_queue_total_length" 1, .GaugeAdd "grader_queue_total_length" (-1),
         .SummaryObserve "grader_queue_delay_seconds" 7,
         .SummaryObserve "grader_queue_low_delay_seconds" 7]
    ∧ jsonDecode sampleJsonEnv (.value (.obj [("grader", .obj [("MaxGradeRetries", .num "5"),
          ("port", .num "8080")]), ("Unknown", .arr [])])) (.struct [("Grader", .struct
            [("Port", .uint16 1), ("MaxGradeRetries", .int 3)]), ("X", .bool true)])
        = .ok (.struct [("Grader", .struct
            [("Port", .uint16 8080), ("MaxGradeRetries", .int 5)]), ("X", .bool true)])
    ∧ jsonDecode sampleJsonEnv (.value (.obj [("Grader", .obj [("Port", .num "70000")])]))
          Quark.defaultConfig
        = .error (.unmarshalType "number 70000" "uint16")
    ∧ jsonDecode sampleJsonEnv (.value (.obj [("Grader", .str "x")])) Quark.defaultConfig
        = .error (.unmarshalType "string" "struct") :=
  ⟨by decide, rfl, rfl, rfl⟩

end Quark
